import Mathlib

set_option autoImplicit false

/-
Verification of the tailcall GraphQL gateway's core algorithms against its
specification.  Each section shallowly embeds one Rust module of the
repository (file named in the section header) and proves the spec's claims
about it.  Rust machine integers that matter to no claim are modelled as Nat;
`NonZeroU64` is modelled as PNat; fallible code returns Option/Except.
-/

namespace Tailcall

/-! ## Section 1: the IR resolver algebra (src/core/ir/model.rs)

The payload types carried by IR nodes (DynamicValue, Auth, Discriminator,
GroupBy, HttpFilter and the three request-template types) live outside the
covered source files; the claims treat them as opaque data, so they are
modelled as records whose internal structure never matters.  A request
template's `cache_key` is an unknown function of the evaluation context,
modelled as a function-valued field. -/

/-- Modelled from the spec: the per-request evaluation context (section 4.G);
only its existence matters to the claims below. -/
structure EvalContext where
  vars : List (String × String)

/-- Modelled from the spec: a JSON-shaped value with template holes, carried
opaquely by `IR::Dynamic`. -/
structure DynamicValue where
  val : String

/-- Modelled from the spec: an auth predicate, carried opaquely by `IR::Protect`. -/
structure Auth where
  provider : String

/-- Modelled from the spec: a discriminator, carried opaquely by `IR::Discriminate`. -/
structure Discriminator where
  type_field : String

/-- Modelled from the spec: a group-by path for batching, carried opaquely. -/
structure GroupBy where
  path : List String

/-- Modelled from the spec: an HTTP response post-processing filter, carried opaquely. -/
structure HttpFilter where
  on_request : Option String

/-- Embeds `IrId(usize)`. -/
structure IrId where
  id : Nat

/-- Embeds `DataLoaderId(usize)`. -/
structure DataLoaderId where
  id : Nat

/-- Embeds `IoId(u64)`, the 64-bit request fingerprint. -/
structure IoId where
  id : Nat

/-- Modelled from the spec: `http::RequestTemplate`; its `cache_key` hashes the
fully rendered request, an unknown pure function of the context. -/
structure HttpRequestTemplate where
  cacheKeyFn : EvalContext → Option IoId

/-- Modelled from the spec: `graphql::RequestTemplate`. -/
structure GraphQLRequestTemplate where
  cacheKeyFn : EvalContext → Option IoId

/-- Modelled from the spec: `grpc::RequestTemplate`. -/
structure GrpcRequestTemplate where
  cacheKeyFn : EvalContext → Option IoId

/-- Embeds `enum IO` of src/core/ir/model.rs (named `Io` here because `IO` is
taken by the Lean core library).  Fields follow the source exactly. -/
inductive Io where
| http (req_template : HttpRequestTemplate) (group_by : Option GroupBy)
    (dl_id : Option DataLoaderId) (http_filter : Option HttpFilter)
    (is_list : Bool) (dedupe : Bool) (is_dependent : Bool)
| graphQL (req_template : GraphQLRequestTemplate) (field_name : String)
    (batch : Bool) (dl_id : Option DataLoaderId) (dedupe : Bool) (is_dependent : Bool)
| grpc (req_template : GrpcRequestTemplate) (group_by : Option GroupBy)
    (dl_id : Option DataLoaderId) (dedupe : Bool)
| js (name : String)

/-- Embeds `IO::is_dependent`.  The source comment admits Grpc is defaulted to
true (TODO in source: fix is_dependent for GraphQL and Grpc). -/
def Io.is_dependent : Io → Bool
| .http _ _ _ _ _ _ d => d
| .graphQL _ _ _ _ _ d => d
| .grpc _ _ _ _ => true
| .js _ => false

/-- Embeds `IO::dedupe`. -/
def Io.dedupe : Io → Bool
| .http _ _ _ _ _ d _ => d
| .graphQL _ _ _ _ d _ => d
| .grpc _ _ _ d => d
| .js _ => false

/-- Embeds `impl CacheKey for IO`: delegate to the request template;
`IO::Js` has no cache key. -/
def Io.cache_key : Io → EvalContext → Option IoId
| .http t _ _ _ _ _ _, ctx => t.cacheKeyFn ctx
| .grpc t _ _ _, ctx => t.cacheKeyFn ctx
| .graphQL t _ _ _ _ _, ctx => t.cacheKeyFn ctx
| .js _, _ => none

/-- Embeds `enum IR` of src/core/ir/model.rs.  `Cache { max_age, io }` is
inlined as the `cache` constructor (the Rust struct holds exactly these two
fields); `Map { input, map }` likewise; `HashMap<String, IR>` in `Entity` is
modelled as an association list. -/
inductive IR where
| dynamic (dv : DynamicValue)
| io (op : Io)
| cache (max_age : PNat) (op : Io)
| path (e : IR) (segs : List String)
| contextPath (segs : List String)
| protect (auth : Auth) (e : IR)
| map (input : IR) (table : List (String × String))
| pipe (first second : IR)
| discriminate (d : Discriminator) (e : IR)
| entity (m : List (String × IR))
| service (sdl : String)
| deferred (id : IrId) (label : Option String) (e : IR) (path : List String)

/-- Substitute the modifier's answer when it is `Some`, else the rebuilt node.
This is the `match modifier(&self) { Some(expr) => expr, None => ... }` at the
top of `IR::modify_inner`, factored out so that each arm below stays a
structural recursion. -/
def orElseIR (r : Option IR) (d : Unit → IR) : IR :=
  match r with
  | some expr => expr
  | none => d ()

mutual
/-- Embeds `IR::modify_inner`: the modifier is consulted on the node first and
its answer substituted if `Some`; otherwise the node is rebuilt over
recursively modified children.  The source's single top-level
`match modifier(&self)` is distributed into each constructor arm via
`orElseIR` (same semantics).  The source's Cache arm re-enters `modify_inner`
on `IR::IO(io)`, whose only effect is a single modifier application, inlined
here; the lemma `modify_inner_cache_eq` recovers the source's exact phrasing. -/
def IR.modify_inner (modifier : IR → Option IR) : IR → IR
| .pipe first second =>
    orElseIR (modifier (.pipe first second))
      (fun _ => .pipe (IR.modify_inner modifier first) (IR.modify_inner modifier second))
| .contextPath path => orElseIR (modifier (.contextPath path)) (fun _ => .contextPath path)
| .dynamic d => orElseIR (modifier (.dynamic d)) (fun _ => .dynamic d)
| .io op => orElseIR (modifier (.io op)) (fun _ => .io op)
| .cache max_age op =>
    orElseIR (modifier (.cache max_age op))
      (fun _ =>
        match modifier (.io op) with
        | none => .cache max_age op
        | some (.io op2) => .cache max_age op2
        | some expr => expr)
| .path e2 p =>
    orElseIR (modifier (.path e2 p)) (fun _ => .path (IR.modify_inner modifier e2) p)
| .protect auth e2 =>
    orElseIR (modifier (.protect auth e2))
      (fun _ => .protect auth (IR.modify_inner modifier e2))
| .map input table =>
    orElseIR (modifier (.map input table))
      (fun _ => .map (IR.modify_inner modifier input) table)
| .discriminate d e2 =>
    orElseIR (modifier (.discriminate d e2))
      (fun _ => .discriminate d (IR.modify_inner modifier e2))
| .entity m =>
    orElseIR (modifier (.entity m)) (fun _ => .entity (modifyEntityList modifier m))
| .service sdl => orElseIR (modifier (.service sdl)) (fun _ => .service sdl)
| .deferred i lab e2 p =>
    orElseIR (modifier (.deferred i lab e2 p))
      (fun _ => .deferred i lab (IR.modify_inner modifier e2) p)

/-- Embeds the `IR::Entity` arm of `modify_inner`:
`map.into_iter().map(|(k, v)| (k, v.modify(modifier))).collect()`. -/
def modifyEntityList (modifier : IR → Option IR) : List (String × IR) → List (String × IR)
| [] => []
| (k, v) :: rest => (k, IR.modify_inner modifier v) :: modifyEntityList modifier rest
end

/-- Embeds `IR::modify` (which simply calls `modify_inner`). -/
def IR.modify (e : IR) (modifier : IR → Option IR) : IR :=
  IR.modify_inner modifier e

/-- The source's Cache arm of `modify_inner` verbatim: rebuild via a recursive
call on `IR::IO(io)`, re-wrapping a surviving IO node.  It equals the inlined
arm used in the definition above. -/
theorem modify_inner_cache_eq (modifier : IR → Option IR) (m : PNat) (op : Io) :
    IR.modify_inner modifier (.cache m op) =
      orElseIR (modifier (.cache m op))
        (fun _ =>
          match IR.modify_inner modifier (.io op) with
          | .io op2 => .cache m op2
          | expr => expr) := by
  simp only [IR.modify_inner, orElseIR]
  cases modifier (.cache m op) with
  | some expr => rfl
  | none =>
    simp only
    cases h2 : modifier (.io op) with
    | none => rfl
    | some expr => cases expr <;> simp

/-- Embeds `Cache::wrap`: a `modify` pass replacing every `IO` node with
`Cache { max_age, io }`. -/
def Cache.wrap (max_age : PNat) (expr : IR) : IR :=
  expr.modify (fun e =>
    match e with
    | .io op => some (.cache max_age op)
    | _ => none)

mutual
/-- Claim-side description of `Cache::wrap` (spec section 4.C): replace every
`IO(op)` leaf with `Cache { max_age, op }` and leave every non-IO node
structurally unchanged, recursing into children.  On an existing `Cache` node
the claim is silent; the source resets its `max_age`, and so does this
description. -/
def cacheWrapSpec (max_age : PNat) : IR → IR
| .dynamic d => .dynamic d
| .io op => .cache max_age op
| .cache _ op => .cache max_age op
| .path e2 p => .path (cacheWrapSpec max_age e2) p
| .contextPath p => .contextPath p
| .protect auth e2 => .protect auth (cacheWrapSpec max_age e2)
| .map input table => .map (cacheWrapSpec max_age input) table
| .pipe a b => .pipe (cacheWrapSpec max_age a) (cacheWrapSpec max_age b)
| .discriminate d e2 => .discriminate d (cacheWrapSpec max_age e2)
| .entity m => .entity (cacheWrapSpecEntity max_age m)
| .service sdl => .service sdl
| .deferred i lab e2 p => .deferred i lab (cacheWrapSpec max_age e2) p

/-- Companion of `cacheWrapSpec` on entity association lists. -/
def cacheWrapSpecEntity (max_age : PNat) : List (String × IR) → List (String × IR)
| [] => []
| (k, v) :: rest => (k, cacheWrapSpec max_age v) :: cacheWrapSpecEntity max_age rest
end

mutual
/-- All IO operations reachable from a node, left to right (a `Cache` node
reaches the single IO it wraps). -/
def ioList : IR → List Io
| .dynamic _ => []
| .io op => [op]
| .cache _ op => [op]
| .path e2 _ => ioList e2
| .contextPath _ => []
| .protect _ e2 => ioList e2
| .map input _ => ioList input
| .pipe a b => ioList a ++ ioList b
| .discriminate _ e2 => ioList e2
| .entity m => ioListEntity m
| .service _ => []
| .deferred _ _ e2 _ => ioList e2

/-- Companion of `ioList` on entity association lists. -/
def ioListEntity : List (String × IR) → List Io
| [] => []
| (_, v) :: rest => ioList v ++ ioListEntity rest
end

mutual
/-- Erase every Cache wrapper, returning the underlying tree (`Cache{_, op}`
becomes `IO(op)`).  Two trees with equal erasures share all non-cache
structure: pipe order, protect scopes, paths, payloads. -/
def eraseCache : IR → IR
| .dynamic d => .dynamic d
| .io op => .io op
| .cache _ op => .io op
| .path e2 p => .path (eraseCache e2) p
| .contextPath p => .contextPath p
| .protect auth e2 => .protect auth (eraseCache e2)
| .map input table => .map (eraseCache input) table
| .pipe a b => .pipe (eraseCache a) (eraseCache b)
| .discriminate d e2 => .discriminate d (eraseCache e2)
| .entity m => .entity (eraseCacheEntity m)
| .service sdl => .service sdl
| .deferred i lab e2 p => .deferred i lab (eraseCache e2) p

/-- Companion of `eraseCache` on entity association lists. -/
def eraseCacheEntity : List (String × IR) → List (String × IR)
| [] => []
| (k, v) :: rest => (k, eraseCache v) :: eraseCacheEntity rest
end

/-! Lemmas about modify and Cache::wrap. -/

mutual
theorem modify_inner_none_id (e : IR) :
    IR.modify_inner (fun _ => none) e = e := by
  cases e with
  | pipe a b =>
    simp [IR.modify_inner, orElseIR, modify_inner_none_id a, modify_inner_none_id b]
  | dynamic d => simp [IR.modify_inner, orElseIR]
  | io op => simp [IR.modify_inner, orElseIR]
  | cache m op => simp [IR.modify_inner, orElseIR]
  | path e2 p => simp [IR.modify_inner, orElseIR, modify_inner_none_id e2]
  | contextPath p => simp [IR.modify_inner, orElseIR]
  | protect a e2 => simp [IR.modify_inner, orElseIR, modify_inner_none_id e2]
  | map input t => simp [IR.modify_inner, orElseIR, modify_inner_none_id input]
  | discriminate d e2 => simp [IR.modify_inner, orElseIR, modify_inner_none_id e2]
  | entity m => simp [IR.modify_inner, orElseIR, modifyEntityList_none_id m]
  | service s => simp [IR.modify_inner, orElseIR]
  | deferred i lab e2 p => simp [IR.modify_inner, orElseIR, modify_inner_none_id e2]

theorem modifyEntityList_none_id (l : List (String × IR)) :
    modifyEntityList (fun _ => none) l = l := by
  cases l with
  | nil => simp [modifyEntityList]
  | cons kv rest =>
    cases kv with
    | mk k v => simp [modifyEntityList, modify_inner_none_id v, modifyEntityList_none_id rest]
end

/-- The modifier used by `Cache::wrap`. -/
def wrapModifier (max_age : PNat) : IR → Option IR := fun e =>
  match e with
  | .io op => some (.cache max_age op)
  | _ => none

theorem cache_wrap_eq_modify (a : PNat) (e : IR) :
    Cache.wrap a e = IR.modify_inner (wrapModifier a) e := rfl

mutual
theorem wrap_eq_spec (a : PNat) (e : IR) :
    IR.modify_inner (wrapModifier a) e = cacheWrapSpec a e := by
  cases e with
  | pipe x y =>
    simp [IR.modify_inner, orElseIR, wrapModifier, cacheWrapSpec,
      wrap_eq_spec a x, wrap_eq_spec a y]
  | dynamic d => simp [IR.modify_inner, orElseIR, wrapModifier, cacheWrapSpec]
  | io op => simp [IR.modify_inner, orElseIR, wrapModifier, cacheWrapSpec]
  | cache m op => simp [IR.modify_inner, orElseIR, wrapModifier, cacheWrapSpec]
  | path e2 p =>
    simp [IR.modify_inner, orElseIR, wrapModifier, cacheWrapSpec, wrap_eq_spec a e2]
  | contextPath p => simp [IR.modify_inner, orElseIR, wrapModifier, cacheWrapSpec]
  | protect au e2 =>
    simp [IR.modify_inner, orElseIR, wrapModifier, cacheWrapSpec, wrap_eq_spec a e2]
  | map input t =>
    simp [IR.modify_inner, orElseIR, wrapModifier, cacheWrapSpec, wrap_eq_spec a input]
  | discriminate d e2 =>
    simp [IR.modify_inner, orElseIR, wrapModifier, cacheWrapSpec, wrap_eq_spec a e2]
  | entity m =>
    simp [IR.modify_inner, orElseIR, wrapModifier, cacheWrapSpec, wrapEntity_eq_spec a m]
  | service s => simp [IR.modify_inner, orElseIR, wrapModifier, cacheWrapSpec]
  | deferred i lab e2 p =>
    simp [IR.modify_inner, orElseIR, wrapModifier, cacheWrapSpec, wrap_eq_spec a e2]

theorem wrapEntity_eq_spec (a : PNat) (l : List (String × IR)) :
    modifyEntityList (wrapModifier a) l = cacheWrapSpecEntity a l := by
  cases l with
  | nil => simp [modifyEntityList, cacheWrapSpecEntity]
  | cons kv rest =>
    cases kv with
    | mk k v =>
      simp [modifyEntityList, cacheWrapSpecEntity, wrap_eq_spec a v, wrapEntity_eq_spec a rest]
end

mutual
theorem wrapSpec_idem (a : PNat) (e : IR) :
    cacheWrapSpec a (cacheWrapSpec a e) = cacheWrapSpec a e := by
  cases e with
  | pipe x y => simp [cacheWrapSpec, wrapSpec_idem a x, wrapSpec_idem a y]
  | dynamic d => simp [cacheWrapSpec]
  | io op => simp [cacheWrapSpec]
  | cache m op => simp [cacheWrapSpec]
  | path e2 p => simp [cacheWrapSpec, wrapSpec_idem a e2]
  | contextPath p => simp [cacheWrapSpec]
  | protect au e2 => simp [cacheWrapSpec, wrapSpec_idem a e2]
  | map input t => simp [cacheWrapSpec, wrapSpec_idem a input]
  | discriminate d e2 => simp [cacheWrapSpec, wrapSpec_idem a e2]
  | entity m => simp [cacheWrapSpec, wrapSpecEntity_idem a m]
  | service s => simp [cacheWrapSpec]
  | deferred i lab e2 p => simp [cacheWrapSpec, wrapSpec_idem a e2]

theorem wrapSpecEntity_idem (a : PNat) (l : List (String × IR)) :
    cacheWrapSpecEntity a (cacheWrapSpecEntity a l) = cacheWrapSpecEntity a l := by
  cases l with
  | nil => simp [cacheWrapSpecEntity]
  | cons kv rest =>
    cases kv with
    | mk k v =>
      simp [cacheWrapSpecEntity, wrapSpec_idem a v, wrapSpecEntity_idem a rest]
end

mutual
theorem ioList_wrapSpec (a : PNat) (e : IR) :
    ioList (cacheWrapSpec a e) = ioList e := by
  cases e with
  | pipe x y => simp [cacheWrapSpec, ioList, ioList_wrapSpec a x, ioList_wrapSpec a y]
  | dynamic d => simp [cacheWrapSpec, ioList]
  | io op => simp [cacheWrapSpec, ioList]
  | cache m op => simp [cacheWrapSpec, ioList]
  | path e2 p => simp [cacheWrapSpec, ioList, ioList_wrapSpec a e2]
  | contextPath p => simp [cacheWrapSpec, ioList]
  | protect au e2 => simp [cacheWrapSpec, ioList, ioList_wrapSpec a e2]
  | map input t => simp [cacheWrapSpec, ioList, ioList_wrapSpec a input]
  | discriminate d e2 => simp [cacheWrapSpec, ioList, ioList_wrapSpec a e2]
  | entity m => simp [cacheWrapSpec, ioList, ioListEntity_wrapSpec a m]
  | service s => simp [cacheWrapSpec, ioList]
  | deferred i lab e2 p => simp [cacheWrapSpec, ioList, ioList_wrapSpec a e2]

theorem ioListEntity_wrapSpec (a : PNat) (l : List (String × IR)) :
    ioListEntity (cacheWrapSpecEntity a l) = ioListEntity l := by
  cases l with
  | nil => simp [cacheWrapSpecEntity]
  | cons kv rest =>
    cases kv with
    | mk k v =>
      simp [cacheWrapSpecEntity, ioListEntity, ioList_wrapSpec a v, ioListEntity_wrapSpec a rest]
end

mutual
theorem eraseCache_wrapSpec (a : PNat) (e : IR) :
    eraseCache (cacheWrapSpec a e) = eraseCache e := by
  cases e with
  | pipe x y =>
    simp [cacheWrapSpec, eraseCache, eraseCache_wrapSpec a x, eraseCache_wrapSpec a y]
  | dynamic d => simp [cacheWrapSpec, eraseCache]
  | io op => simp [cacheWrapSpec, eraseCache]
  | cache m op => simp [cacheWrapSpec, eraseCache]
  | path e2 p => simp [cacheWrapSpec, eraseCache, eraseCache_wrapSpec a e2]
  | contextPath p => simp [cacheWrapSpec, eraseCache]
  | protect au e2 => simp [cacheWrapSpec, eraseCache, eraseCache_wrapSpec a e2]
  | map input t => simp [cacheWrapSpec, eraseCache, eraseCache_wrapSpec a input]
  | discriminate d e2 => simp [cacheWrapSpec, eraseCache, eraseCache_wrapSpec a e2]
  | entity m => simp [cacheWrapSpec, eraseCache, eraseCacheEntity_wrapSpec a m]
  | service s => simp [cacheWrapSpec, eraseCache]
  | deferred i lab e2 p => simp [cacheWrapSpec, eraseCache, eraseCache_wrapSpec a e2]

theorem eraseCacheEntity_wrapSpec (a : PNat) (l : List (String × IR)) :
    eraseCacheEntity (cacheWrapSpecEntity a l) = eraseCacheEntity l := by
  cases l with
  | nil => simp [cacheWrapSpecEntity]
  | cons kv rest =>
    cases kv with
    | mk k v =>
      simp [cacheWrapSpecEntity, eraseCacheEntity, eraseCache_wrapSpec a v,
        eraseCacheEntity_wrapSpec a rest]
end

/-! Claim theorems for the IR section. -/

/-- C2: for every IR tree and every non-zero `max_age`, `Cache::wrap` replaces
every IO leaf with `Cache { max_age, io }` and leaves every non-IO node
structurally unchanged (it equals the node-by-node description
`cacheWrapSpec`), and applying `Cache::wrap(max_age, -)` a second time yields
an equal tree. -/
theorem claim_C2_cache_wrap_spec_and_idempotent (max_age : PNat) (e : IR) :
    Cache.wrap max_age e = cacheWrapSpec max_age e ∧
      Cache.wrap max_age (Cache.wrap max_age e) = Cache.wrap max_age e := by
  constructor
  · rw [cache_wrap_eq_modify, wrap_eq_spec]
  · rw [cache_wrap_eq_modify, cache_wrap_eq_modify, wrap_eq_spec max_age e,
      wrap_eq_spec, wrapSpec_idem]

/-- C3: `IR::modify` applied with the identity modifier (returning `None` on
every node) returns the input tree unchanged, for every IR variant. -/
theorem claim_C3_modify_identity (e : IR) : e.modify (fun _ => none) = e := by
  rw [IR.modify, modify_inner_none_id]

/-- C4 counterexample: `IR::modify` with an arbitrary modifier need not
preserve the reachable IO endpoints.  The modifier replacing every node with
`Service("x")` erases the IO endpoint of the tree `IO(Js("f"))`. -/
theorem claim_C4_counterexample :
    ioList ((IR.io (Io.js "f")).modify (fun _ => some (IR.service "x"))) ≠
      ioList (IR.io (Io.js "f")) := by
  simp [IR.modify, IR.modify_inner, orElseIR, ioList]

/-- C4 amended: the rewrite actually performed through `IR::modify`, namely
`Cache::wrap`, preserves the left-to-right sequence of reachable IO endpoints
(hence their set, and the order of every `Pipe`), and preserves all structure
up to Cache wrappers (hence the scope of every `Protect`): erasing Cache
wrappers from the result gives the Cache erasure of the input. -/
theorem claim_C4_amended_wrap_preserves (a : PNat) (e : IR) :
    ioList (Cache.wrap a e) = ioList e ∧
      eraseCache (Cache.wrap a e) = eraseCache e := by
  constructor
  · rw [cache_wrap_eq_modify, wrap_eq_spec, ioList_wrapSpec]
  · rw [cache_wrap_eq_modify, wrap_eq_spec, eraseCache_wrapSpec]

/-- C9: a `IO::Js` operation is never deduplicated (`dedupe()` is false) and
never fingerprinted (`cache_key` is `None` for every context); additionally
`is_dependent()` is true for every `IO::Grpc` and false for every `IO::Js`. -/
theorem claim_C9_js_never_dedupes_or_fingerprints (name : String)
    (ctx : EvalContext) (t : GrpcRequestTemplate) (g : Option GroupBy)
    (d : Option DataLoaderId) (dd : Bool) :
    (Io.js name).dedupe = false ∧
      (Io.js name).cache_key ctx = none ∧
      (Io.grpc t g d dd).is_dependent = true ∧
      (Io.js name).is_dependent = false := by
  refine ⟨rfl, rfl, rfl, rfl⟩

/-! ## Section 2: dedupe at-most-once (benches/dedupe_bench.rs; `DedupeResult`)

The implementation of `DedupeResult` (src/core/data_loader) is not among the
covered source files; only its benchmark caller is.  Following the spec's
dedupe contract (section 4.D), the per-key producer/subscriber slot is
modelled as a labelled transition system for one fixed key: the slot is
either empty or holds the list of callers waiting on the in-flight compute.
An `arrive` event is a `dedupe(key, f)` call: on an empty slot the caller
becomes the producer and `f` starts (the compute counter increments); on a
pending slot the caller subscribes.  A `complete r` event is the producer's
compute finishing with result `r` (a value or an error kind alike): every
waiting caller receives `r` and the slot empties (request-level dedupe uses
`persist = false`, so the result is not retained). -/

/-- Modelled from the spec: one dedupe event for a single key. -/
inductive DedupeEvent (R : Type) where
| arrive (caller : Nat)
| complete (result : R)

/-- Modelled from the spec: the per-key dedupe slot state, plus observation
instrumentation: how often the compute function was started, and which caller
received which result. -/
structure DedupeState (R : Type) where
  slot : Option (List Nat)
  computeCount : Nat
  received : List (Nat × R)

/-- Initial dedupe state: no call in flight, compute never run. -/
def dedupeInit (R : Type) : DedupeState R :=
  { slot := none, computeCount := 0, received := [] }

/-- Modelled from the spec: one transition of the per-key dedupe slot. -/
def dedupeStep {R : Type} (s : DedupeState R) : DedupeEvent R → DedupeState R
| .arrive c =>
  match s.slot with
  | none => { s with slot := some [c], computeCount := s.computeCount + 1 }
  | some subs => { s with slot := some (c :: subs) }
| .complete r =>
  match s.slot with
  | none => s
  | some subs => { s with slot := none, received := subs.map (fun c => (c, r)) ++ s.received }

/-- Run a trace of dedupe events from a state. -/
def dedupeRun {R : Type} (s : DedupeState R) : List (DedupeEvent R) → DedupeState R
| [] => s
| ev :: rest => dedupeRun (dedupeStep s ev) rest

/-- Running a concatenated trace runs the pieces in order. -/
theorem dedupeRun_append {R : Type} (s : DedupeState R)
    (l1 l2 : List (DedupeEvent R)) :
    dedupeRun s (l1 ++ l2) = dedupeRun (dedupeRun s l1) l2 := by
  induction l1 generalizing s with
  | nil => simp [dedupeRun]
  | cons ev rest ih => simp [dedupeRun, ih]

/-- Arrivals only extend the pending slot; the compute counter increments
exactly on the first arrival. -/
theorem dedupeRun_arrivals (cs : List Nat) (subs : List Nat) {R : Type}
    (s : DedupeState R) (h : s.slot = some subs) :
    dedupeRun s (cs.map .arrive) =
      { s with slot := some (cs.reverse ++ subs) } := by
  induction cs generalizing s subs with
  | nil =>
    cases s with
    | mk sl cc rc => simp only [dedupeRun, List.map_nil]; simp_all
  | cons c rest ih =>
    simp only [List.map_cons, dedupeRun, dedupeStep, h]
    rw [ih (c :: subs) _ rfl]
    simp

/-- C1: for any single key, across N concurrent `dedupe(key, f)` calls (all N
calls arrive while the single compute is in flight, i.e. before its
completion), the compute function runs exactly once and every caller receives
the same result `r`, value or error kind alike.  Stated over the spec-modelled
transition system, for any nonempty caller list. -/
theorem claim_C1_dedupe_at_most_once {R : Type} (cs : List Nat) (r : R)
    (h : cs ≠ []) :
    (dedupeRun (dedupeInit R) (cs.map .arrive ++ [.complete r])).computeCount = 1 ∧
      (∀ c ∈ cs, (c, r) ∈ (dedupeRun (dedupeInit R) (cs.map .arrive ++ [.complete r])).received) ∧
      (∀ p ∈ (dedupeRun (dedupeInit R) (cs.map .arrive ++ [.complete r])).received, p.2 = r) := by
  cases cs with
  | nil => exact absurd rfl h
  | cons c0 rest =>
    have hrun : dedupeRun (dedupeInit R) ((c0 :: rest).map .arrive ++ [.complete r]) =
        { slot := none, computeCount := 1,
          received := (rest.reverse ++ [c0]).map (fun c => (c, r)) } := by
      have h1 : dedupeStep (dedupeInit R) (.arrive c0) =
          { slot := some [c0], computeCount := 1, received := [] } := rfl
      have h2 := dedupeRun_arrivals rest [c0]
        ({ slot := some [c0], computeCount := 1, received := [] } : DedupeState R) rfl
      have h3 : (c0 :: rest).map DedupeEvent.arrive ++ [DedupeEvent.complete r] =
          DedupeEvent.arrive c0 :: (rest.map DedupeEvent.arrive ++ [DedupeEvent.complete r]) := by
        simp
      rw [h3]
      simp only [dedupeRun]
      rw [h1, dedupeRun_append, h2]
      simp [dedupeRun, dedupeStep]
    rw [hrun]
    refine ⟨rfl, ?_, ?_⟩
    · intro c hc
      have hmem : c ∈ rest.reverse ++ [c0] := by
        rcases List.mem_cons.mp hc with h0 | hr
        · simp [h0]
        · simp [hr]
      simp only [List.mem_map]
      exact ⟨c, hmem, rfl⟩
    · intro p hp
      simp only [List.mem_map] at hp
      rcases hp with ⟨c, _, rfl⟩
      rfl

/-- Witness for C1 at a concrete input: three concurrent callers, result 7. -/
theorem claim_C1_witness :
    (dedupeRun (dedupeInit Nat) ([10, 11, 12].map .arrive ++ [.complete 7])).computeCount = 1 ∧
      (∀ c ∈ [10, 11, 12],
        (c, 7) ∈ (dedupeRun (dedupeInit Nat) ([10, 11, 12].map .arrive ++ [.complete 7])).received) ∧
      (∀ p ∈ (dedupeRun (dedupeInit Nat) ([10, 11, 12].map .arrive ++ [.complete 7])).received,
        p.2 = 7) :=
  claim_C1_dedupe_at_most_once [10, 11, 12] 7 (by simp)

/-! ## Section 3: the request-body batch expander (src/core/http/expander.rs)

serde_json's `Value` is modelled as `Json` (numbers as Int; objects as
association lists, which preserves what the claims observe: keys and the
per-key values).  Rust's `str::contains` and `str::replace` (replace all
non-overlapping occurrences, left to right) are modelled over `List Char`;
`replace` takes a fuel argument bounded by the haystack length so that it
stays structurally recursive (every step consumes at least one character, so
`hay.length` fuel is always enough; the fuel-exhausted arm is unreachable).
The braces of the mustache markers are written with \x7b / \x7d escapes. -/

/-- Modelled from serde_json: a JSON value. -/
inductive Json where
| null
| bool (b : Bool)
| num (n : Int)
| str (s : String)
| arr (items : List Json)
| obj (fields : List (String × Json))

/-- Modelled from Rust `str::contains` (substring containment). -/
def containsList : List Char → List Char → Bool
| [], pat => pat.isEmpty
| c :: rest, pat => pat.isPrefixOf (c :: rest) || containsList rest pat

/-- Modelled from Rust `str::replace`: replace all non-overlapping occurrences
of `pat`, scanning left to right.  Structural recursion on `fuel`; callers
pass the haystack length, which always suffices because each step consumes at
least one character ( `str::replace` with an empty pattern never occurs in the
expander, whose patterns are the two mustache markers). -/
def replaceListAux (rep pat : List Char) : Nat → List Char → List Char
| _, [] => []
| 0, hay => hay
| fuel + 1, c :: rest =>
  if pat.isPrefixOf (c :: rest) && !pat.isEmpty then
    rep ++ replaceListAux rep pat fuel (List.drop pat.length (c :: rest))
  else
    c :: replaceListAux rep pat fuel rest

/-- String wrapper for `containsList`. -/
def strContains (s pat : String) : Bool :=
  containsList s.toList pat.toList

/-- String wrapper for `replaceListAux` with sufficient fuel. -/
def strReplace (s pat rep : String) : String :=
  ⟨replaceListAux rep.toList pat.toList s.toList.length s.toList⟩

/-- The marker `{{.value.` (braces escaped). -/
def valueDotPat : String := "\x7b\x7b.value."

/-- The marker `{{value.` (braces escaped). -/
def valuePat : String := "\x7b\x7bvalue."

/-- The replacement `{{.value.<index>.` of the source's
`format!(..., index)` call. -/
def valueDotRep (index : Nat) : String := "\x7b\x7b.value." ++ toString index ++ "."

/-- The replacement `{{value.<index>.` of the source's `format!` call. -/
def valueRep (index : Nat) : String := "\x7b\x7bvalue." ++ toString index ++ "."

mutual
/-- Embeds `Expander::update_mustache_expr`: rewrite every string containing a
`.value` mustache marker to carry the batch index; recurse through arrays and
objects; leave other values as is. -/
def updateMustacheExpr (index : Nat) : Json → Json
| .obj m => .obj (updObj index m)
| .arr l => .arr (updArr index l)
| .str s =>
  if strContains s valueDotPat || strContains s valuePat then
    .str (strReplace (strReplace s valueDotPat (valueDotRep index)) valuePat (valueRep index))
  else
    .str s
| other => other

/-- Object companion of `updateMustacheExpr` (keys are left unchanged). -/
def updObj (index : Nat) : List (String × Json) → List (String × Json)
| [] => []
| (k, v) :: rest => (k, updateMustacheExpr index v) :: updObj index rest

/-- Array companion of `updateMustacheExpr`. -/
def updArr (index : Nat) : List Json → List Json
| [] => []
| v :: rest => updateMustacheExpr index v :: updArr index rest
end

/-- The source's `for index in 0..batch_size` loop: concatenate, for each
index, the expanded elements rewritten with that index. -/
def expandCopies (batch_size : Nat) (expanded : List Json) : List Json :=
  ((List.range batch_size).map (fun index => expanded.map (updateMustacheExpr index))).flatten

mutual
/-- Embeds `Expander::expand_inner`: recurse into objects; for arrays, expand
the elements and then emit `batch_size` consecutive copies of the expanded
list, the i-th copy rewritten with batch index i; return every other variant
as is. -/
def Expander.expand_inner (batch_size : Nat) : Json → Json
| .obj m => .obj (expandObj batch_size m)
| .arr l => .arr (expandCopies batch_size (expandArr batch_size l))
| other => other

/-- Object companion of `expand_inner` (keys are left unchanged). -/
def expandObj (batch_size : Nat) : List (String × Json) → List (String × Json)
| [] => []
| (k, v) :: rest => (k, Expander.expand_inner batch_size v) :: expandObj batch_size rest

/-- Array companion of `expand_inner`. -/
def expandArr (batch_size : Nat) : List Json → List Json
| [] => []
| v :: rest => Expander.expand_inner batch_size v :: expandArr batch_size rest
end

theorem expandArr_eq_map (n : Nat) (l : List Json) :
    expandArr n l = l.map (Expander.expand_inner n) := by
  induction l with
  | nil => rfl
  | cons v rest ih => simp [expandArr, ih]

theorem expandObj_eq_map (n : Nat) (m : List (String × Json)) :
    expandObj n m = m.map (fun kv => (kv.1, Expander.expand_inner n kv.2)) := by
  induction m with
  | nil => rfl
  | cons kv rest ih => cases kv; simp [expandObj, ih]

theorem expandCopies_length (n : Nat) (l : List Json) :
    (expandCopies n l).length = n * l.length := by
  simp [expandCopies, List.length_flatten, Function.comp]
  induction n with
  | zero => simp
  | succ k ih =>
    rw [List.range_succ]
    simp [ih, Nat.succ_mul, Nat.add_comm]

/-- C8: `expand_inner` replaces each array of k (expanded) elements by the
n * k element concatenation of n consecutive copies, the i-th copy rewritten
with batch index i; it maps objects value-wise keeping every key; it returns
scalars unchanged; `update_mustache_expr` leaves strings without a `.value`
marker unchanged and rewrites strings with one by the indexed replacement
(demonstrated concretely on the string `{{.value.userId}}` at index 3, which
becomes `{{.value.3.userId}}`). -/
theorem claim_C8_expander (n : Nat) (l : List Json) (m : List (String × Json))
    (s1 s2 : String) (i : Nat) (b : Bool) (z : Int)
    (h1 : strContains s1 valueDotPat = false ∧ strContains s1 valuePat = false)
    (h2 : (strContains s2 valueDotPat || strContains s2 valuePat) = true) :
    Expander.expand_inner n (.arr l) =
        .arr (expandCopies n (l.map (Expander.expand_inner n))) ∧
      (expandCopies n (l.map (Expander.expand_inner n))).length = n * l.length ∧
      Expander.expand_inner n (.obj m) =
        .obj (m.map (fun kv => (kv.1, Expander.expand_inner n kv.2))) ∧
      Expander.expand_inner n .null = .null ∧
      Expander.expand_inner n (.bool b) = .bool b ∧
      Expander.expand_inner n (.num z) = .num z ∧
      Expander.expand_inner n (.str s1) = .str s1 ∧
      updateMustacheExpr i (.str s1) = .str s1 ∧
      updateMustacheExpr i (.str s2) =
        .str (strReplace (strReplace s2 valueDotPat (valueDotRep i)) valuePat (valueRep i)) ∧
      updateMustacheExpr 3 (.str "\x7b\x7b.value.userId\x7d\x7d") =
        .str "\x7b\x7b.value.3.userId\x7d\x7d" := by
  refine ⟨?_, ?_, ?_, rfl, rfl, rfl, rfl, ?_, ?_, by rfl⟩
  · simp [Expander.expand_inner, expandArr_eq_map]
  · rw [expandCopies_length]; simp
  · simp [Expander.expand_inner, expandObj_eq_map]
  · simp [updateMustacheExpr, h1.1, h1.2]
  · simp [updateMustacheExpr, h2]

/-- Witness for C8 at concrete inputs: batch size 2, a one-element array, a
one-field object, the marker-free string `hello`, and the marker-bearing
string `{{value.id}}` at index 1. -/
theorem claim_C8_witness :
    Expander.expand_inner 2 (.arr [.num 5]) =
        .arr (expandCopies 2 ([Json.num 5].map (Expander.expand_inner 2))) ∧
      (expandCopies 2 ([Json.num 5].map (Expander.expand_inner 2))).length =
        2 * [Json.num 5].length ∧
      Expander.expand_inner 2 (.obj [("k", .null)]) =
        .obj ([("k", Json.null)].map (fun kv => (kv.1, Expander.expand_inner 2 kv.2))) ∧
      Expander.expand_inner 2 .null = .null ∧
      Expander.expand_inner 2 (.bool true) = .bool true ∧
      Expander.expand_inner 2 (.num 9) = .num 9 ∧
      Expander.expand_inner 2 (.str "hello") = .str "hello" ∧
      updateMustacheExpr 1 (.str "hello") = .str "hello" ∧
      updateMustacheExpr 1 (.str "\x7b\x7bvalue.id\x7d\x7d") =
        .str (strReplace (strReplace "\x7b\x7bvalue.id\x7d\x7d" valueDotPat (valueDotRep 1))
          valuePat (valueRep 1)) ∧
      updateMustacheExpr 3 (.str "\x7b\x7b.value.userId\x7d\x7d") =
        .str "\x7b\x7b.value.3.userId\x7d\x7d" :=
  claim_C8_expander 2 [.num 5] [("k", .null)] "hello" "\x7b\x7bvalue.id\x7d\x7d" 1 true 9
    (by decide) (by decide)

/-! ## Section 4: the Apollo _entities dispatcher (src/blueprint/into_schema.rs)

The entity-resolver closure of `create` walks the incoming representations;
for each it reads `__typename` and looks it up in the blueprint's
`entity_resolvers: HashMap<String, Option<Expression>>`.  The arms
`None => {}` and `Some(None) => {}` push nothing into `values`; only
`Some(Some(expr))` evaluates the expression and pushes the result.  A
representation is modelled by its `__typename` (the only field the dispatcher
reads); the expression type, the value type and the async evaluation
`expr.eval(&ctx).await` (plus the `FieldValue` wrapping) are opaque to the
dispatch logic and stay abstract. -/

/-- Modelled from std `HashMap::get` on an association list. -/
def lookupAssoc {α : Type} : List (String × α) → String → Option α
| [], _ => none
| (k, v) :: rest, key => if k = key then some v else lookupAssoc rest key

/-- Embeds the representations loop of the entity resolver in `create`:
collect, in order, the evaluated resolver result of every representation
whose typename maps to `Some(Some(expr))`; push nothing otherwise. -/
def entityResolverValues {E V : Type} (entity_resolvers : List (String × Option E))
    (evalFn : E → V) : List String → List V
| [] => []
| typename :: rest =>
  match lookupAssoc entity_resolvers typename with
  | none => entityResolverValues entity_resolvers evalFn rest
  | some none => entityResolverValues entity_resolvers evalFn rest
  | some (some expr) => evalFn expr :: entityResolverValues entity_resolvers evalFn rest

/-- C5 counterexample: a single representation with typename `User` and an
empty entity-resolver map yields the empty list — the representation is
omitted, it does not resolve to a null entry (which would make the output
have length 1). -/
theorem claim_C5_counterexample :
    entityResolverValues ([] : List (String × Option Nat)) (fun e => e) ["User"] = [] ∧
      (entityResolverValues ([] : List (String × Option Nat)) (fun e => e) ["User"]).length ≠
        (["User"] : List String).length := by
  exact ⟨rfl, by decide⟩

/-- C5 amended: each representation whose typename has no entry in the
entity-resolver map, or whose entry holds no resolver, is omitted from the
returned list; each representation with a resolver entry is dispatched to
that typename's expression, results kept in representation order. -/
theorem claim_C5_amended_entity_dispatch {E V : Type}
    (entity_resolvers : List (String × Option E)) (evalFn : E → V)
    (reps : List String) :
    entityResolverValues entity_resolvers evalFn reps =
      reps.filterMap (fun typename =>
        match lookupAssoc entity_resolvers typename with
        | some (some expr) => some (evalFn expr)
        | _ => none) := by
  induction reps with
  | nil => rfl
  | cons t rest ih =>
    simp only [entityResolverValues, List.filterMap_cons]
    cases h : lookupAssoc entity_resolvers t with
    | none => simpa [h] using ih
    | some o =>
      cases o with
      | none => simpa [h] using ih
      | some expr => simpa [h] using ih

/-! ## Section 5: Server::try_from (src/core/blueprint/server.rs)

`tailcall_valid::Valid` is an error-accumulating validation applicative; it is
modelled as `Except (List BlueprintError) _` whose `fuse` concatenates the
error lists of both sides (`trace` annotations are dropped: the claims speak
only about error kinds).  The external `http` crate's `HeaderName` parsing is
modelled from that crate: a nonempty string of token characters, normalised
to lowercase; `HeaderValue` as a visible-character check; `std` `IpAddr`
parsing as a recogniser for digit/dot/colon strings (the claims never depend
on its exact domain); the `config::cors::Cors` conversion (outside the
covered sources) as a validity flag on the config.  Rust's `to_lowercase` and
`starts_with` are modelled over character lists.  The `Server` fields that
are plain copies of config scalars (the `enable_*` switches, port, workers,
vars, routes) cannot fail validation and are omitted from the model. -/

/-- Embeds the variants of `BlueprintError` used by `Server::try_from`. -/
inductive BlueprintError where
| CertificateIsRequiredForHTTP2
| KeyIsRequiredForHTTP2
| ParsingFailed (hostname : String)
| InvalidHeaderName (h : String)
| InvalidHeaderValue (v : String)
| ExperimentalHeaderInvalidFormat (h : String)
| CorsInvalid
deriving DecidableEq

/-- Embeds `Valid::fuse`: combine two validations, concatenating errors. -/
def validFuse {α β : Type} : Except (List BlueprintError) α →
    Except (List BlueprintError) β → Except (List BlueprintError) (α × β)
| .ok a, .ok b => .ok (a, b)
| .error e1, .error e2 => .error (e1 ++ e2)
| .error e1, .ok _ => .error e1
| .ok _, .error e2 => .error e2

/-- Embeds `Valid::from_iter`: validate every element, accumulating all
errors; succeed with the list of results only if every element succeeds. -/
def validFromIter {α β : Type} (f : α → Except (List BlueprintError) β) :
    List α → Except (List BlueprintError) (List β)
| [] => .ok []
| x :: rest =>
  match f x, validFromIter f rest with
  | .ok b, .ok bs => .ok (b :: bs)
  | .error e1, .error e2 => .error (e1 ++ e2)
  | .error e1, .ok _ => .error e1
  | .ok _, .error e2 => .error e2

/-- Modelled from Rust `String::to_lowercase` (adequate for the ASCII header
names and hostnames involved). -/
def strToLower (s : String) : String := String.mk (s.toList.map Char.toLower)

/-- Modelled from Rust `str::starts_with`. -/
def strStartsWith (s pre : String) : Bool := pre.toList.isPrefixOf s.toList

/-- Modelled from the http crate: the characters legal in a header name
(lowercase letters, digits, uppercase letters, and the token specials). -/
def isHeaderNameChar (c : Char) : Bool :=
  (Char.ofNat 97 ≤ c && c ≤ Char.ofNat 122) ||
  (Char.ofNat 48 ≤ c && c ≤ Char.ofNat 57) ||
  (Char.ofNat 65 ≤ c && c ≤ Char.ofNat 90) ||
  c ∈ ['!', '#', '$', '%', '&', Char.ofNat 39, '*', '+', '-', '.', '^', '_',
    Char.ofNat 96, '|', '~']

/-- Modelled from the http crate: `HeaderName::from_str` / `from_bytes`
accepts a nonempty token string and normalises it to lowercase. -/
def headerNameFromStr (s : String) : Option String :=
  if s.length != 0 && s.toList.all isHeaderNameChar then some (strToLower s)
  else none

/-- Modelled from the http crate: `HeaderValue::from_str` accepts visible
characters plus space and tab. -/
def headerValueValid (s : String) : Bool :=
  s.toList.all (fun c => c = Char.ofNat 9 || (Char.ofNat 32 ≤ c && c.toNat != 127))

/-- Modelled from std: `IpAddr::from_str`, as a recogniser for nonempty
strings of digits, dots and colons (the claims do not depend on its exact
domain, only on its being a fixed predicate on the hostname). -/
def parseIpAddr (s : String) : Option String :=
  if s.length != 0 && s.toList.all (fun c => c.isDigit || c = '.' || c = ':') then
    some s
  else none

/-- Embeds `enum Http` (the private key is opaque, modelled as Nat). -/
inductive HttpModel where
| HTTP1
| HTTP2 (cert : List Nat) (key : Nat)
deriving DecidableEq

/-- Embeds `config::HttpVersion`. -/
inductive HttpVersion where
| HTTP1
| HTTP2
deriving DecidableEq

/-- Embeds the `config::server::Server` getters consulted by `try_from`:
version, hostname, response headers, experimental headers, CORS config
(modelled by its validity), script timeout. -/
structure ConfigServer where
  version : HttpVersion
  hostname : String
  response_headers : List (String × String)
  experimental_headers : List String
  cors_valid : Option Bool
  script_timeout : Option Nat

/-- Embeds the parts of `ConfigModule` consulted by `try_from`: the server
config and the extensions (certificates, keys, script source; certificates
and keys are opaque, modelled as Nat). -/
structure ConfigModule where
  server : ConfigServer
  cert : List Nat
  keys : List Nat
  script : Option String

/-- Embeds `blueprint::Script`. -/
structure Script where
  source : String
  timeout : Option Nat
deriving DecidableEq

/-- Embeds `blueprint::Server`, restricted to the six validated components
(the scalar copy-throughs are omitted; they cannot fail). -/
structure Server where
  hostname : String
  http : HttpModel
  response_headers : List (String × String)
  script : Option Script
  experimental_headers : List String
  cors : Option Unit
deriving DecidableEq

/-- Embeds `validate_hostname` (the caller lowercases first): `localhost`
maps to 127.0.0.1, anything else must parse as an IP address. -/
def validate_hostname (hostname : String) : Except (List BlueprintError) String :=
  if hostname = "localhost" then .ok "127.0.0.1"
  else
    match parseIpAddr hostname with
    | some ip => .ok ip
    | none => .error [.ParsingFailed hostname]

/-- Embeds the per-pair body of `handle_response_headers`: validate name and
value, accumulating errors from both (the source's `name.zip(value)`). -/
def respHeaderCheck (kv : String × String) :
    Except (List BlueprintError) (String × String) :=
  validFuse
    (match headerNameFromStr kv.1 with
     | some n => .ok n
     | none => .error [.InvalidHeaderName kv.1])
    (if headerValueValid kv.2 then .ok kv.2 else .error [.InvalidHeaderValue kv.2])

/-- Embeds `handle_response_headers`. -/
def handle_response_headers (resp_headers : List (String × String)) :
    Except (List BlueprintError) (List (String × String)) :=
  validFromIter respHeaderCheck resp_headers

/-- Embeds the per-header body of `handle_experimental_headers`: the header
must start with `x-` after lowercasing, then parse as a header name. -/
def expHeaderCheck (h : String) : Except (List BlueprintError) String :=
  if !(strStartsWith (strToLower h) "x-") then
    .error [.ExperimentalHeaderInvalidFormat h]
  else
    match headerNameFromStr h with
    | some name => .ok name
    | none => .error [.InvalidHeaderName h]

/-- Embeds `handle_experimental_headers`. -/
def handle_experimental_headers (headers : List String) :
    Except (List BlueprintError) (List String) :=
  validFromIter expHeaderCheck headers

/-- Embeds `to_script`: never fails; pairs the extension source with the
configured timeout. -/
def to_script (cm : ConfigModule) : Except (List BlueprintError) (Option Script) :=
  match cm.script with
  | none => .ok none
  | some src => .ok (some { source := src, timeout := cm.server.script_timeout })

/-- Embeds `validate_cors`, with the external `Cors` conversion modelled by
the config's validity flag. -/
def validate_cors (cors_valid : Option Bool) : Except (List BlueprintError) (Option Unit) :=
  match cors_valid with
  | none => .ok none
  | some true => .ok (some ())
  | some false => .error [.CorsInvalid]

/-- Embeds the fused validation chain and final map of `Server::try_from`,
after the HTTP/2 certificate and key early returns have produced `http`. -/
def tryFromRest (cm : ConfigModule) (http : HttpModel) :
    Except (List BlueprintError) Server :=
  match validFuse (validFuse (validFuse (validFuse (validFuse
      (validate_hostname (strToLower cm.server.hostname))
      (.ok http : Except (List BlueprintError) HttpModel))
      (handle_response_headers cm.server.response_headers))
      (to_script cm))
      (handle_experimental_headers cm.server.experimental_headers))
      (validate_cors cm.server.cors_valid) with
  | .error e => .error e
  | .ok (((((hostname, http2), response_headers), script), experimental), cors) =>
    .ok { hostname := hostname, http := http2, response_headers := response_headers,
          script := script, experimental_headers := experimental, cors := cors }

/-- Embeds `Server::try_from`: on HTTP/2 the certificate and key checks run
first and return early; otherwise the six validations are fused. -/
def Server.try_from (cm : ConfigModule) : Except (List BlueprintError) Server :=
  match cm.server.version with
  | .HTTP2 =>
    if cm.cert = [] then .error [.CertificateIsRequiredForHTTP2]
    else
      match cm.keys with
      | [] => .error [.KeyIsRequiredForHTTP2]
      | k :: _ => tryFromRest cm (.HTTP2 cm.cert k)
  | .HTTP1 => tryFromRest cm .HTTP1

/-- The validation-failure predicate named by the claim: some configured
input is rejected by one of try_from's validators. -/
def validationFails (cm : ConfigModule) : Prop :=
  (cm.server.version = .HTTP2 ∧ (cm.cert = [] ∨ cm.keys = [])) ∨
  (strToLower cm.server.hostname ≠ "localhost" ∧
    parseIpAddr (strToLower cm.server.hostname) = none) ∨
  (∃ kv ∈ cm.server.response_headers,
    headerNameFromStr kv.1 = none ∨ headerValueValid kv.2 = false) ∨
  (∃ h ∈ cm.server.experimental_headers,
    strStartsWith (strToLower h) "x-" = false ∨ headerNameFromStr h = none) ∨
  cm.server.cors_valid = some false

/-! Lemmas about the validation applicative. -/

theorem exceptIsOk_ok {α : Type} (a : α) :
    (Except.ok a : Except (List BlueprintError) α).isOk = true := rfl

theorem exceptIsOk_error {α : Type} (e : List BlueprintError) :
    (Except.error e : Except (List BlueprintError) α).isOk = false := rfl

theorem validFuse_isOk {α β : Type} (a : Except (List BlueprintError) α)
    (b : Except (List BlueprintError) β) :
    (validFuse a b).isOk = (a.isOk && b.isOk) := by
  cases a <;> cases b <;> rfl

theorem validFuse_ok_elim {α β : Type} {a : Except (List BlueprintError) α}
    {b : Except (List BlueprintError) β} {v : α × β}
    (h : validFuse a b = .ok v) : a = .ok v.1 ∧ b = .ok v.2 := by
  cases a with
  | error e => cases b <;> simp [validFuse] at h
  | ok x =>
    cases b with
    | error e => simp [validFuse] at h
    | ok y =>
      simp only [validFuse, Except.ok.injEq] at h
      subst h
      exact ⟨rfl, rfl⟩

theorem validFuse_error_left {α β : Type} {a : Except (List BlueprintError) α}
    (b : Except (List BlueprintError) β) {e : BlueprintError} {errs : List BlueprintError}
    (ha : a = .error errs) (he : e ∈ errs) :
    ∃ l, validFuse a b = .error l ∧ e ∈ l := by
  subst ha
  cases b with
  | ok y => exact ⟨errs, rfl, he⟩
  | error e2 => exact ⟨errs ++ e2, rfl, List.mem_append_left _ he⟩

theorem validFuse_error_right {α β : Type} (a : Except (List BlueprintError) α)
    {b : Except (List BlueprintError) β} {e : BlueprintError} {errs : List BlueprintError}
    (hb : b = .error errs) (he : e ∈ errs) :
    ∃ l, validFuse a b = .error l ∧ e ∈ l := by
  subst hb
  cases a with
  | ok x => exact ⟨errs, rfl, he⟩
  | error e1 => exact ⟨e1 ++ errs, rfl, List.mem_append_right _ he⟩

theorem validFromIter_isOk {α β : Type} (f : α → Except (List BlueprintError) β)
    (l : List α) :
    (validFromIter f l).isOk = l.all (fun x => (f x).isOk) := by
  induction l with
  | nil => rfl
  | cons x rest ih =>
    simp only [validFromIter, List.all_cons, ← ih]
    cases f x <;> cases validFromIter f rest <;> rfl

theorem validFromIter_error_mem {α β : Type} {f : α → Except (List BlueprintError) β}
    {l : List α} {x : α} {e : BlueprintError} {errs : List BlueprintError}
    (hx : x ∈ l) (hf : f x = .error errs) (he : e ∈ errs) :
    ∃ l2, validFromIter f l = .error l2 ∧ e ∈ l2 := by
  induction l with
  | nil => cases hx
  | cons y rest ih =>
    rcases List.mem_cons.mp hx with rfl | hmem
    · simp only [validFromIter, hf]
      cases h2 : validFromIter f rest with
      | ok bs => exact ⟨errs, rfl, he⟩
      | error e2 => exact ⟨errs ++ e2, rfl, List.mem_append_left _ he⟩
    · rcases ih hmem with ⟨l2, h2, hmem2⟩
      simp only [validFromIter, h2]
      cases hy : f y with
      | ok b => exact ⟨l2, rfl, hmem2⟩
      | error e1 => exact ⟨e1 ++ l2, rfl, List.mem_append_right _ hmem2⟩

theorem validFromIter_ok_mem {α β : Type} {f : α → Except (List BlueprintError) β}
    {l : List α} {res : List β} {x : α}
    (h : validFromIter f l = .ok res) (hx : x ∈ l) :
    ∃ y, f x = .ok y ∧ y ∈ res := by
  induction l generalizing res with
  | nil => cases hx
  | cons z rest ih =>
    simp only [validFromIter] at h
    cases hz : f z with
    | error e1 => rw [hz] at h; cases hrest : validFromIter f rest <;> rw [hrest] at h <;> cases h
    | ok b =>
      rw [hz] at h
      cases hrest : validFromIter f rest with
      | error e2 => rw [hrest] at h; cases h
      | ok bs =>
        rw [hrest] at h
        cases h
        rcases List.mem_cons.mp hx with rfl | hmem
        · exact ⟨b, hz, List.mem_cons_self _ _⟩
        · rcases ih hrest hmem with ⟨y, hy, hymem⟩
          exact ⟨y, hy, List.mem_cons_of_mem _ hymem⟩

theorem validate_hostname_isOk (h : String) :
    (validate_hostname h).isOk = true ↔
      ¬ (h ≠ "localhost" ∧ parseIpAddr h = none) := by
  unfold validate_hostname
  by_cases hl : h = "localhost"
  · simp [hl, exceptIsOk_ok]
  · simp only [hl, if_false]
    cases hp : parseIpAddr h <;>
      simp [hp, hl, exceptIsOk_ok, exceptIsOk_error]

theorem respHeaderCheck_isOk (kv : String × String) :
    (respHeaderCheck kv).isOk = true ↔
      ¬ (headerNameFromStr kv.1 = none ∨ headerValueValid kv.2 = false) := by
  unfold respHeaderCheck
  rw [validFuse_isOk]
  cases hname : headerNameFromStr kv.1 with
  | none => simp [exceptIsOk_error]
  | some n =>
    cases hv : headerValueValid kv.2 <;>
      simp [hv, exceptIsOk_ok, exceptIsOk_error]

theorem expHeaderCheck_isOk (h : String) :
    (expHeaderCheck h).isOk = true ↔
      ¬ (strStartsWith (strToLower h) "x-" = false ∨ headerNameFromStr h = none) := by
  unfold expHeaderCheck
  cases hsw : strStartsWith (strToLower h) "x-" with
  | false => simp [exceptIsOk_error]
  | true =>
    cases hname : headerNameFromStr h with
    | none => simp [hname, exceptIsOk_error]
    | some n => simp [hname, exceptIsOk_ok]

theorem handle_response_headers_isOk (l : List (String × String)) :
    (handle_response_headers l).isOk = true ↔
      ¬ ∃ kv ∈ l, headerNameFromStr kv.1 = none ∨ headerValueValid kv.2 = false := by
  unfold handle_response_headers
  rw [validFromIter_isOk]
  simp only [List.all_eq_true]
  constructor
  · rintro hall ⟨kv, hmem, hbad⟩
    exact ((respHeaderCheck_isOk kv).mp (hall kv hmem)) hbad
  · intro hno kv hmem
    exact (respHeaderCheck_isOk kv).mpr (fun hbad => hno ⟨kv, hmem, hbad⟩)

theorem handle_experimental_headers_isOk (l : List String) :
    (handle_experimental_headers l).isOk = true ↔
      ¬ ∃ h ∈ l, strStartsWith (strToLower h) "x-" = false ∨
        headerNameFromStr h = none := by
  unfold handle_experimental_headers
  rw [validFromIter_isOk]
  simp only [List.all_eq_true]
  constructor
  · rintro hall ⟨h, hmem, hbad⟩
    exact ((expHeaderCheck_isOk h).mp (hall h hmem)) hbad
  · intro hno h hmem
    exact (expHeaderCheck_isOk h).mpr (fun hbad => hno ⟨h, hmem, hbad⟩)

theorem to_script_isOk (cm : ConfigModule) : (to_script cm).isOk = true := by
  unfold to_script
  cases cm.script <;> rfl

theorem validate_cors_isOk (c : Option Bool) :
    (validate_cors c).isOk = true ↔ ¬ c = some false := by
  unfold validate_cors
  cases c with
  | none => simp [exceptIsOk_ok]
  | some b => cases b <;> simp [exceptIsOk_ok, exceptIsOk_error]

theorem tryFromRest_isOk (cm : ConfigModule) (http : HttpModel) :
    (tryFromRest cm http).isOk =
      ((validate_hostname (strToLower cm.server.hostname)).isOk &&
        (handle_response_headers cm.server.response_headers).isOk &&
        (to_script cm).isOk &&
        (handle_experimental_headers cm.server.experimental_headers).isOk &&
        (validate_cors cm.server.cors_valid).isOk) := by
  unfold tryFromRest
  have hcomp : (validFuse (validFuse (validFuse (validFuse (validFuse
      (validate_hostname (strToLower cm.server.hostname))
      (.ok http : Except (List BlueprintError) HttpModel))
      (handle_response_headers cm.server.response_headers))
      (to_script cm))
      (handle_experimental_headers cm.server.experimental_headers))
      (validate_cors cm.server.cors_valid)).isOk =
      ((validate_hostname (strToLower cm.server.hostname)).isOk &&
        (handle_response_headers cm.server.response_headers).isOk &&
        (to_script cm).isOk &&
        (handle_experimental_headers cm.server.experimental_headers).isOk &&
        (validate_cors cm.server.cors_valid).isOk) := by
    simp only [validFuse_isOk, exceptIsOk_ok, Bool.and_true]
  rw [← hcomp]
  cases hbig : validFuse (validFuse (validFuse (validFuse (validFuse
      (validate_hostname (strToLower cm.server.hostname))
      (.ok http : Except (List BlueprintError) HttpModel))
      (handle_response_headers cm.server.response_headers))
      (to_script cm))
      (handle_experimental_headers cm.server.experimental_headers))
      (validate_cors cm.server.cors_valid) with
  | error e => rfl
  | ok v =>
    obtain ⟨⟨⟨⟨⟨a, b⟩, c⟩, d⟩, e5⟩, f⟩ := v
    rfl

theorem tryFromRest_error_mem (cm : ConfigModule) (http : HttpModel)
    {e : BlueprintError}
    (h : ∃ errs, handle_experimental_headers cm.server.experimental_headers =
      .error errs ∧ e ∈ errs) :
    ∃ l, tryFromRest cm http = .error l ∧ e ∈ l := by
  rcases h with ⟨errs, herr, hmem⟩
  rcases validFuse_error_right (validFuse (validFuse (validFuse
      (validate_hostname (strToLower cm.server.hostname))
      (.ok http : Except (List BlueprintError) HttpModel))
      (handle_response_headers cm.server.response_headers))
      (to_script cm)) herr hmem with ⟨l4, hF4, hm4⟩
  rcases validFuse_error_left (validate_cors cm.server.cors_valid) hF4 hm4 with
    ⟨l5, hF5, hm5⟩
  refine ⟨l5, ?_, hm5⟩
  unfold tryFromRest
  rw [hF5]

theorem tryFromRest_ok_exp {cm : ConfigModule} {http : HttpModel} {srv : Server}
    (h : tryFromRest cm http = .ok srv) :
    handle_experimental_headers cm.server.experimental_headers =
      .ok srv.experimental_headers := by
  unfold tryFromRest at h
  cases hbig : validFuse (validFuse (validFuse (validFuse (validFuse
      (validate_hostname (strToLower cm.server.hostname))
      (.ok http : Except (List BlueprintError) HttpModel))
      (handle_response_headers cm.server.response_headers))
      (to_script cm))
      (handle_experimental_headers cm.server.experimental_headers))
      (validate_cors cm.server.cors_valid) with
  | error e => rw [hbig] at h; cases h
  | ok v =>
    rw [hbig] at h
    obtain ⟨⟨⟨⟨⟨a, b⟩, c⟩, d⟩, e5⟩, f⟩ := v
    have h1 := (validFuse_ok_elim hbig).1
    have h2 := (validFuse_ok_elim h1).2
    cases h
    exact h2

theorem try_from_eq_http1 {cm : ConfigModule}
    (hv : cm.server.version = .HTTP1) :
    Server.try_from cm = tryFromRest cm .HTTP1 := by
  simp only [Server.try_from, hv]

theorem try_from_http2_nocert {cm : ConfigModule}
    (hv : cm.server.version = .HTTP2) (hc : cm.cert = []) :
    Server.try_from cm = .error [.CertificateIsRequiredForHTTP2] := by
  simp only [Server.try_from, hv, hc, if_true]

theorem try_from_http2_nokey {cm : ConfigModule}
    (hv : cm.server.version = .HTTP2) (hc : cm.cert ≠ []) (hk : cm.keys = []) :
    Server.try_from cm = .error [.KeyIsRequiredForHTTP2] := by
  simp only [Server.try_from, hv, hk]
  rw [if_neg hc]

theorem try_from_eq_http2 {cm : ConfigModule} {k : Nat} {ks : List Nat}
    (hv : cm.server.version = .HTTP2) (hc : cm.cert ≠ []) (hk : cm.keys = k :: ks) :
    Server.try_from cm = tryFromRest cm (.HTTP2 cm.cert k) := by
  simp only [Server.try_from, hv, hk]
  rw [if_neg hc]

/-- The counterexample configuration for C10: HTTP/2 requested without
certificates, together with an experimental header that violates the `x-`
rule. -/
def cmHttp2NoCert : ConfigModule :=
  { server :=
      { version := .HTTP2, hostname := "localhost",
        response_headers := [], experimental_headers := ["bad"],
        cors_valid := none, script_timeout := none },
    cert := [], keys := [], script := none }

/-- C10 counterexample: with HTTP/2 requested, no certificate configured and
the ill-formed experimental header `bad`, `Server::try_from` fails — but with
the certificate error alone, not with `ExperimentalHeaderInvalidFormat`: the
certificate check returns early, so the claim's `fails with
ExperimentalHeaderInvalidFormat whenever any experimental header is bad` does
not hold for this input. -/
theorem claim_C10_counterexample :
    Server.try_from cmHttp2NoCert =
        .error [BlueprintError.CertificateIsRequiredForHTTP2] ∧
      "bad" ∈ cmHttp2NoCert.server.experimental_headers ∧
      strStartsWith (strToLower "bad") "x-" = false ∧
      BlueprintError.ExperimentalHeaderInvalidFormat "bad" ∉
        [BlueprintError.CertificateIsRequiredForHTTP2] := by
  refine ⟨rfl, by decide, by decide, by decide⟩

/-- C10 amended: `Server::try_from` returns an error exactly when validation
fails (HTTP/2 certificate and key presence, hostname, response headers,
experimental headers, CORS).  Provided the HTTP/2 certificate and key checks
pass (they run first and return early, skipping all other validators), a
configured experimental header that does not start with `x-` after
lowercasing makes `try_from` fail with `ExperimentalHeaderInvalidFormat` for
that header among the errors.  When `try_from` succeeds, every configured
experimental header starts with `x-` (case-insensitive), parses as a header
name, and its parsed (lowercased) name appears in the resulting Server's
`experimental_headers` set. -/
theorem claim_C10_amended_server_try_from (cm1 cm2 cm3 : ConfigModule)
    (h : String) (srv : Server)
    (hpass : cm2.server.version = HttpVersion.HTTP1 ∨
      (cm2.cert ≠ [] ∧ cm2.keys ≠ []))
    (hmem : h ∈ cm2.server.experimental_headers)
    (hbad : strStartsWith (strToLower h) "x-" = false)
    (hok : Server.try_from cm3 = .ok srv) :
    ((Server.try_from cm1).isOk = true ↔ ¬ validationFails cm1) ∧
      (∃ errs, Server.try_from cm2 = .error errs ∧
        BlueprintError.ExperimentalHeaderInvalidFormat h ∈ errs) ∧
      (∀ g ∈ cm3.server.experimental_headers,
        strStartsWith (strToLower g) "x-" = true ∧
          ∃ nm, headerNameFromStr g = some nm ∧ nm ∈ srv.experimental_headers) := by
  refine ⟨?_, ?_, ?_⟩
  · -- part (a): error iff validation fails
    cases hv : cm1.server.version with
    | HTTP1 =>
      rw [try_from_eq_http1 hv, tryFromRest_isOk]
      constructor
      · intro hok2 hfail
        rw [Bool.and_eq_true, Bool.and_eq_true, Bool.and_eq_true,
          Bool.and_eq_true] at hok2
        obtain ⟨⟨⟨⟨hA2, hB2⟩, -⟩, hD2⟩, hE2⟩ := hok2
        rcases hfail with ⟨hf1, hf2⟩ | hf | hf | hf | hf
        · rw [hv] at hf1; cases hf1
        · exact ((validate_hostname_isOk _).mp hA2) hf
        · exact ((handle_response_headers_isOk _).mp hB2) hf
        · exact ((handle_experimental_headers_isOk _).mp hD2) hf
        · exact ((validate_cors_isOk _).mp hE2) hf
      · intro hno
        rw [Bool.and_eq_true, Bool.and_eq_true, Bool.and_eq_true, Bool.and_eq_true]
        refine ⟨⟨⟨⟨?_, ?_⟩, to_script_isOk cm1⟩, ?_⟩, ?_⟩
        · exact (validate_hostname_isOk _).mpr (fun hf => hno (Or.inr (Or.inl hf)))
        · exact (handle_response_headers_isOk _).mpr
            (fun hf => hno (Or.inr (Or.inr (Or.inl hf))))
        · exact (handle_experimental_headers_isOk _).mpr
            (fun hf => hno (Or.inr (Or.inr (Or.inr (Or.inl hf)))))
        · exact (validate_cors_isOk _).mpr
            (fun hf => hno (Or.inr (Or.inr (Or.inr (Or.inr hf)))))
    | HTTP2 =>
      by_cases hc : cm1.cert = []
      · rw [try_from_http2_nocert hv hc]
        constructor
        · intro hfalse; cases hfalse
        · intro hno; exact (hno (Or.inl ⟨hv, Or.inl hc⟩)).elim
      · cases hk : cm1.keys with
        | nil =>
          rw [try_from_http2_nokey hv hc hk]
          constructor
          · intro hfalse; cases hfalse
          · intro hno; exact (hno (Or.inl ⟨hv, Or.inr hk⟩)).elim
        | cons k ks =>
          rw [try_from_eq_http2 hv hc hk, tryFromRest_isOk]
          constructor
          · intro hok2 hfail
            rw [Bool.and_eq_true, Bool.and_eq_true, Bool.and_eq_true,
              Bool.and_eq_true] at hok2
            obtain ⟨⟨⟨⟨hA2, hB2⟩, -⟩, hD2⟩, hE2⟩ := hok2
            rcases hfail with ⟨hf1, hf2⟩ | hf | hf | hf | hf
            · rcases hf2 with hcc | hkk
              · exact hc hcc
              · rw [hk] at hkk; cases hkk
            · exact ((validate_hostname_isOk _).mp hA2) hf
            · exact ((handle_response_headers_isOk _).mp hB2) hf
            · exact ((handle_experimental_headers_isOk _).mp hD2) hf
            · exact ((validate_cors_isOk _).mp hE2) hf
          · intro hno
            rw [Bool.and_eq_true, Bool.and_eq_true, Bool.and_eq_true,
              Bool.and_eq_true]
            refine ⟨⟨⟨⟨?_, ?_⟩, to_script_isOk cm1⟩, ?_⟩, ?_⟩
            · exact (validate_hostname_isOk _).mpr
                (fun hf => hno (Or.inr (Or.inl hf)))
            · exact (handle_response_headers_isOk _).mpr
                (fun hf => hno (Or.inr (Or.inr (Or.inl hf))))
            · exact (handle_experimental_headers_isOk _).mpr
                (fun hf => hno (Or.inr (Or.inr (Or.inr (Or.inl hf)))))
            · exact (validate_cors_isOk _).mpr
                (fun hf => hno (Or.inr (Or.inr (Or.inr (Or.inr hf)))))
  · -- part (b): a bad experimental header surfaces, absent an HTTP/2 early exit
    have hf : expHeaderCheck h = .error [.ExperimentalHeaderInvalidFormat h] := by
      unfold expHeaderCheck
      rw [hbad]
      rfl
    have hexp := validFromIter_error_mem hmem hf (List.mem_singleton.mpr rfl)
    have hrest : ∀ http : HttpModel, ∃ l, tryFromRest cm2 http = .error l ∧
        BlueprintError.ExperimentalHeaderInvalidFormat h ∈ l := by
      intro http
      exact tryFromRest_error_mem cm2 http hexp
    cases hv : cm2.server.version with
    | HTTP1 => rw [try_from_eq_http1 hv]; exact hrest .HTTP1
    | HTTP2 =>
      rcases hpass with hp1 | ⟨hcert, hkeys⟩
      · rw [hv] at hp1; cases hp1
      · cases hk : cm2.keys with
        | nil => exact absurd hk hkeys
        | cons k ks =>
          rw [try_from_eq_http2 hv hcert hk]
          exact hrest (.HTTP2 cm2.cert k)
  · -- part (c): on success every experimental header appears, parsed
    have hrest : ∃ http, tryFromRest cm3 http = .ok srv := by
      cases hv : cm3.server.version with
      | HTTP1 => rw [try_from_eq_http1 hv] at hok; exact ⟨.HTTP1, hok⟩
      | HTTP2 =>
        by_cases hc : cm3.cert = []
        · rw [try_from_http2_nocert hv hc] at hok; cases hok
        · cases hk : cm3.keys with
          | nil => rw [try_from_http2_nokey hv hc hk] at hok; cases hok
          | cons k ks =>
            rw [try_from_eq_http2 hv hc hk] at hok
            exact ⟨.HTTP2 cm3.cert k, hok⟩
    rcases hrest with ⟨http, hrest⟩
    have hexp := tryFromRest_ok_exp hrest
    intro g hg
    rcases validFromIter_ok_mem hexp hg with ⟨y, hy, hymem⟩
    unfold expHeaderCheck at hy
    cases hsw : strStartsWith (strToLower g) "x-" with
    | false => rw [hsw] at hy; cases hy
    | true =>
      rw [hsw] at hy
      simp only [Bool.not_true, if_neg] at hy
      cases hname : headerNameFromStr g with
      | none => rw [hname] at hy; cases hy
      | some nm =>
        rw [hname] at hy
        refine ⟨rfl, nm, rfl, ?_⟩
        cases hy
        exact hymem

/-- A fully valid HTTP/1 configuration with one experimental header. -/
def cmGood : ConfigModule :=
  { server :=
      { version := .HTTP1, hostname := "localhost",
        response_headers := [], experimental_headers := ["x-test"],
        cors_valid := none, script_timeout := none },
    cert := [], keys := [], script := none }

/-- An HTTP/1 configuration with the ill-formed experimental header `bad`. -/
def cmBadHdr : ConfigModule :=
  { server :=
      { version := .HTTP1, hostname := "localhost",
        response_headers := [], experimental_headers := ["bad"],
        cors_valid := none, script_timeout := none },
    cert := [], keys := [], script := none }

/-- The server produced from `cmGood`. -/
def srvGood : Server :=
  { hostname := "127.0.0.1", http := .HTTP1, response_headers := [],
    script := none, experimental_headers := ["x-test"], cors := none }

/-- Witness for the amended C10 at concrete configurations. -/
theorem claim_C10_witness :
    ((Server.try_from cmGood).isOk = true ↔ ¬ validationFails cmGood) ∧
      (∃ errs, Server.try_from cmBadHdr = .error errs ∧
        BlueprintError.ExperimentalHeaderInvalidFormat "bad" ∈ errs) ∧
      (∀ g ∈ cmGood.server.experimental_headers,
        strStartsWith (strToLower g) "x-" = true ∧
          ∃ nm, headerNameFromStr g = some nm ∧
            nm ∈ srvGood.experimental_headers) :=
  claim_C10_amended_server_try_from cmGood cmBadHdr cmGood "bad" srvGood
    (Or.inl rfl) (by decide) (by decide) (by rfl)


/-! ## Section 6: the OpenAPI converter (src/core/generator/from_openapi.rs)

The oas3 crate's data model is embedded as far as the converter consults it.
BTreeMap values are modelled as key-sorted association lists (iteration in
list order, `first_key_value` as the head, insertion by `btInsert`); VecDeque
as a list (push_back appends, pop_front takes the head); HashSet membership
as list membership.  `ObjectOrReference::resolve` looks the reference's last
path segment up among the component schemas; the source unwraps failed
resolutions, modelled by designated `unreachable*` defaults (never hit on the
inputs considered here).  `get_schema_type` and the all-of collector recurse
through resolved references, which the Rust would not terminate on for cyclic
specs; they take a fuel argument (any fuel large enough for the spec's
reference depth gives the Rust behaviour).  The `convert_case` crate's
Pascal/Camel conversions are modelled for ASCII identifiers (word splits at
separators, lower-to-upper and letter-digit boundaries). -/

/-- Modelled from oas3: `SchemaType`. -/
inductive SchemaType where
| boolean
| integer
| number
| string
| array
| object
deriving DecidableEq

mutual
/-- Modelled from oas3: the `Schema` fields the converter consults, in order:
items, schema_type, enum_values (the source only ever reads string enum
values; others panic), properties, all_of, any_of, one_of,
additional_properties (modelled by presence), required, description. -/
inductive Schema where
| mk (items : Option SchemaOrRef) (schema_type : Option SchemaType)
    (enum_values : List String) (properties : List (String × SchemaOrRef))
    (all_of : List SchemaOrRef) (any_of : List SchemaOrRef)
    (one_of : List SchemaOrRef) (additional_properties : Bool)
    (required : List String) (description : Option String)

/-- Modelled from oas3: `ObjectOrReference<Schema>`. -/
inductive SchemaOrRef where
| ref (ref_path : String)
| obj (s : Schema)
end

def Schema.items : Schema → Option SchemaOrRef
| .mk i _ _ _ _ _ _ _ _ _ => i

def Schema.schema_type : Schema → Option SchemaType
| .mk _ t _ _ _ _ _ _ _ _ => t

def Schema.enum_values : Schema → List String
| .mk _ _ e _ _ _ _ _ _ _ => e

def Schema.properties : Schema → List (String × SchemaOrRef)
| .mk _ _ _ p _ _ _ _ _ _ => p

def Schema.all_of : Schema → List SchemaOrRef
| .mk _ _ _ _ a _ _ _ _ _ => a

def Schema.any_of : Schema → List SchemaOrRef
| .mk _ _ _ _ _ a _ _ _ _ => a

def Schema.one_of : Schema → List SchemaOrRef
| .mk _ _ _ _ _ _ o _ _ _ => o

def Schema.additional_properties : Schema → Bool
| .mk _ _ _ _ _ _ _ a _ _ => a

def Schema.required : Schema → List String
| .mk _ _ _ _ _ _ _ _ r _ => r

def Schema.description : Schema → Option String
| .mk _ _ _ _ _ _ _ _ _ d => d

/-- Modelled from oas3: `ObjectOrReference<T>` for non-schema payloads. -/
inductive ObjOrRef (α : Type) where
| ref (ref_path : String)
| obj (o : α)

/-- Modelled from oas3: a media type (only its schema is consulted). -/
structure MediaType where
  schema : Option SchemaOrRef

/-- Modelled from oas3: a response (only its content map is consulted). -/
structure ResponseObj where
  content : List (String × MediaType)

/-- Modelled from oas3: a parameter. -/
structure Parameter where
  name : String
  required : Option Bool
  schema : Option Schema
  param_type : Option String

/-- Modelled from oas3: an operation. -/
structure Operation where
  operation_id : Option String
  parameters : List (ObjOrRef Parameter)
  responses : List (String × ObjOrRef ResponseObj)
  description : Option String

/-- Modelled from oas3: a path item with one optional operation per method. -/
structure PathItem where
  get : Option Operation
  head : Option Operation
  options : Option Operation
  trace : Option Operation
  put : Option Operation
  post : Option Operation
  delete : Option Operation
  patch : Option Operation

/-- Modelled from oas3: the components (only schemas are consulted). -/
structure Components where
  schemas : List (String × SchemaOrRef)

/-- Modelled from oas3: a server entry. -/
structure ServerObj where
  url : String

/-- Modelled from oas3: the spec as consulted by the converter. -/
structure Spec where
  servers : List ServerObj
  paths : List (String × PathItem)
  components : Option Components

/-- Embeds `crate::core::http::Method`. -/
inductive Method where
| GET
| HEAD
| OPTIONS
| TRACE
| PUT
| POST
| DELETE
| PATCH
deriving DecidableEq

/-- Modelled from crate::core::config: `KeyValue`. -/
structure KeyValue where
  key : String
  value : String
deriving DecidableEq

/-- Modelled from crate::core::config: `Http` (fields the converter sets;
the remaining fields keep their defaults). -/
structure Http where
  path : String
  method : Method
  query : List KeyValue
deriving DecidableEq

/-- Modelled from crate::core::config: `Arg`. -/
structure Arg where
  type_of : String
  list : Bool
  required : Bool
  doc : Option String
  modify : Option Unit
  default_value : Option Unit
deriving DecidableEq

/-- Modelled from crate::core::config: `Field` (fields the converter sets). -/
structure Field where
  type_of : String
  list : Bool
  required : Bool
  doc : Option String
  args : List (String × Arg)
  http : Option Http
deriving DecidableEq

/-- Modelled from crate::core::config: `Type` (named TypeDef because `Type`
is a Lean keyword). -/
structure TypeDef where
  fields : List (String × Field)
  doc : Option String
deriving DecidableEq

/-- Modelled from crate::core::config: `Union` (its `types` BTreeSet kept in
collection order; only membership matters to the claims). -/
structure Union where
  types : List String
  doc : Option String
deriving DecidableEq

/-- Modelled from crate::core::config: `Enum`. -/
structure Enum where
  variants : List String
  doc : Option String
deriving DecidableEq

/-- Modelled from crate::core::config: the parts of `Config` the converter
fills (upstream base URL, root schema query, and the three type maps). -/
structure Config where
  upstream_base_url : Option String
  schema_query : Option String
  types : List (String × TypeDef)
  unions : List (String × Union)
  enums : List (String × Enum)
deriving DecidableEq

/-- Embeds `enum ConfigType`. -/
inductive ConfigType where
| unionT (u : Union)
| typeT (t : TypeDef)
| enumT (e : Enum)

/-- Embeds `enum TypeName`. -/
inductive TypeName where
| listOf (inner : TypeName)
| name (s : String)

/-- Designated result of a modelled Rust panic (`unwrap` / `unreachable!`);
never reached on the inputs considered here. -/
def unreachableName : String := "UNREACHABLE"

/-- Designated schema standing for a panicking resolve; never reached on the
inputs considered here. -/
def unreachableSchema : Schema := .mk none none [] [] [] [] [] false [] none

/-- Designated parameter standing for a panicking resolve. -/
def unreachableParameter : Parameter :=
  { name := unreachableName, required := none, schema := none, param_type := none }

/-- Embeds `TypeName::name`. -/
def TypeName.nameOpt : TypeName → Option String
| .listOf _ => none
| .name s => some s

/-- Embeds `TypeName::into_tuple` (a nested list panics in the source). -/
def TypeName.into_tuple : TypeName → Bool × String
| .listOf inner => (true, inner.nameOpt.getD unreachableName)
| .name s => (false, s)

/-- Embeds `schema_type_to_string`. -/
def schema_type_to_string : SchemaType → String
| .boolean => "Boolean"
| .integer => "Int"
| .number => "Int"
| .string => "String"
| .array => "Array"
| .object => "Object"

/-- Embeds `schema_to_primitive_type`. -/
def schema_to_primitive_type : SchemaType → Option String
| .array => none
| .object => none
| t => some (schema_type_to_string t)

/-- Modelled from the convert_case crate: word-separator characters. -/
def isWordSep (c : Char) : Bool := c = '_' || c = '-' || c = ' '

/-- Modelled from the convert_case crate: a case boundary between adjacent
characters (lower-to-upper, and letter-digit transitions). -/
def wordBoundary (prev cur : Char) : Bool :=
  (prev.isLower && cur.isUpper) ||
  (prev.isDigit && (cur.isUpper || cur.isLower)) ||
  ((prev.isUpper || prev.isLower) && cur.isDigit)

/-- Split into case words; the accumulator holds the current word reversed. -/
def splitWordsGo : List Char → List Char → List String
| [], [] => []
| [], p :: acc => [String.mk ((p :: acc).reverse)]
| c :: rest, [] =>
  if isWordSep c then splitWordsGo rest [] else splitWordsGo rest [c]
| c :: rest, p :: acc =>
  if isWordSep c then String.mk ((p :: acc).reverse) :: splitWordsGo rest []
  else if wordBoundary p c then
    String.mk ((p :: acc).reverse) :: splitWordsGo rest [c]
  else splitWordsGo rest (c :: p :: acc)

def splitWords (s : String) : List String := splitWordsGo s.toList []

/-- Capitalise the first character, lowercase the rest. -/
def capitalizeWord (w : String) : String :=
  match w.toList with
  | [] => ""
  | c :: rest => String.mk (c.toUpper :: rest.map Char.toLower)

/-- Modelled from convert_case: `to_case(Case::Pascal)`. -/
def toPascal (s : String) : String :=
  String.join ((splitWords s).map capitalizeWord)

/-- Modelled from convert_case: `to_case(Case::Camel)`. -/
def toCamel (s : String) : String :=
  match splitWords s with
  | [] => ""
  | w :: rest =>
    String.join (String.mk (w.toList.map Char.toLower) :: rest.map capitalizeWord)

/-- Code-point-wise lexicographic order on character lists (matches Rust's
byte-wise String Ord on the ASCII data involved). -/
def charListLt : List Char → List Char → Bool
| [], [] => false
| [], _ :: _ => true
| _ :: _, [] => false
| c1 :: r1, c2 :: r2 =>
  if c1.toNat < c2.toNat then true
  else if c2.toNat < c1.toNat then false
  else charListLt r1 r2

/-- String order used by the BTreeMap model. -/
def strLt (a b : String) : Bool := charListLt a.toList b.toList

/-- Modelled from std BTreeMap: ordered insert (replacing an equal key). -/
def btInsert {α : Type} : List (String × α) → String → α → List (String × α)
| [], k, v => [(k, v)]
| (k2, v2) :: rest, k, v =>
  if strLt k k2 then (k, v) :: (k2, v2) :: rest
  else if k = k2 then (k, v) :: rest
  else (k2, v2) :: btInsert rest k v

/-- Characters since the last separator, for `lastSegment`. -/
def lastSegAux : List Char → List Char → List Char
| [], acc => acc.reverse
| c :: rest, acc => if c = '/' then lastSegAux rest [] else lastSegAux rest (c :: acc)

/-- The last `/`-separated segment of a reference path
(`ref_path.split('/').last().unwrap()`). -/
def lastSegment (p : String) : String := String.mk (lastSegAux p.toList [])

/-- Embeds `name_from_ref_path`. -/
def name_from_ref_path : SchemaOrRef → Option String
| .ref ref_path => some (toPascal (lastSegment ref_path))
| .obj _ => none

/-- Modelled from oas3 `ObjectOrReference::<Schema>::resolve`: an inline
object resolves to itself; a reference is looked up among the component
schemas by its last path segment (a dangling or doubly-indirect reference
panics in the source). -/
def resolveSchema (spec : Spec) : SchemaOrRef → Schema
| .obj s => s
| .ref p =>
  match lookupAssoc (match spec.components with
    | some c => c.schemas
    | none => []) (lastSegment p) with
  | some (.obj s) => s
  | _ => unreachableSchema

/-- Modelled from oas3 resolve for parameters (component parameter
references are not consulted by the claims and panic in the source when
dangling). -/
def resolveParameter : ObjOrRef Parameter → Parameter
| .obj p => p
| .ref _ => unreachableParameter

/-- Modelled from oas3 resolve for responses: the source skips the path on a
failed resolve (`let Ok(response) = ... else continue`); reference responses
are treated as failing here (component responses are not modelled). -/
def resolveResponse : ObjOrRef ResponseObj → Option ResponseObj
| .obj r => some r
| .ref _ => none

/-- Embeds the converter state `OpenApiToConfigConverter`. -/
structure Converter where
  query : String
  spec : Spec
  inline_types : List Schema
  inline_types_frozen : Bool
  inline_types_other : List Schema
  types : List (String × TypeDef)
  unions : List (String × Union)
  enums : List (String × Enum)

/-- Embeds `OpenApiToConfigConverter::new` minus the YAML parsing (the spec
value arrives already parsed; every other field takes its default). -/
def converterOf (query : String) (spec : Spec) : Converter :=
  { query := query, spec := spec, inline_types := [], inline_types_frozen := false,
    inline_types_other := [], types := [], unions := [], enums := [] }

/-- Embeds `insert_inline_type`: the anonymous name counts the pending
inline types; while frozen the schema is queued into `inline_types_other`,
otherwise into `inline_types`. -/
def insert_inline_type (st : Converter) (schema : Schema) : String × Converter :=
  let name := "Type" ++ toString st.inline_types.length
  if st.inline_types_frozen then
    (name, { st with inline_types_other := st.inline_types_other ++ [schema] })
  else
    (name, { st with inline_types := st.inline_types ++ [schema] })

/-- Embeds `can_define_type`. -/
def can_define_type (schema : Schema) : Bool :=
  !schema.properties.isEmpty || !schema.all_of.isEmpty ||
  !schema.any_of.isEmpty || !schema.one_of.isEmpty ||
  !schema.enum_values.isEmpty

/-- Embeds `get_schema_type`, with fuel bounding the reference-chasing depth
(the Rust recursion diverges on cyclic specs; exhausted fuel falls back to
`JSON`, never reached on the inputs considered). -/
def get_schema_type : Nat → Converter → Schema → Option String → TypeName × Converter
| 0, st, _, _ => (.name "JSON", st)
| fuel + 1, st, schema, nm =>
  match schema.items with
  | some element =>
    let inner_schema := resolveSchema st.spec element
    if inner_schema.schema_type = some .string && !inner_schema.enum_values.isEmpty then
      let (n, st2) := insert_inline_type st inner_schema
      (.listOf (.name n), st2)
    else
      match (name_from_ref_path element).orElse
          (fun _ => inner_schema.schema_type.bind schema_to_primitive_type) with
      | some n => (.listOf (.name n), st)
      | none =>
        let (t, st2) := get_schema_type fuel st inner_schema none
        (.listOf t, st2)
  | none =>
    if schema.schema_type = some .string && !schema.enum_values.isEmpty then
      let (n, st2) := insert_inline_type st schema
      (.name n, st2)
    else
      match schema.schema_type with
      | some SchemaType.integer => (.name (schema_type_to_string .integer), st)
      | some SchemaType.string => (.name (schema_type_to_string .string), st)
      | some SchemaType.number => (.name (schema_type_to_string .number), st)
      | some SchemaType.boolean => (.name (schema_type_to_string .boolean), st)
      | _ =>
        if schema.additional_properties then (.name "JSON", st)
        else
          match nm with
          | some n => (.name n, st)
          | none =>
            if can_define_type schema then
              let (n, st2) := insert_inline_type st schema
              (.name n, st2)
            else (.name "JSON", st)

mutual
/-- Embeds `get_all_of_properties`: extend the required set, recurse through
resolved all-of members, then append the schema's own properties. -/
def get_all_of_properties (spec : Spec) :
    Nat → List (String × SchemaOrRef) → List String → Schema →
      List (String × SchemaOrRef) × List String
| 0, props, req, _ => (props, req)
| fuel + 1, props, req, schema =>
  let req2 := req ++ schema.required
  let (props3, req3) :=
    if !schema.all_of.isEmpty then
      get_all_of_fold spec fuel props req2 schema.all_of
    else (props, req2)
  (props3 ++ schema.properties, req3)
termination_by fuel _ _ _ => (fuel, 0)

/-- Fold of `get_all_of_properties` over the all-of members. -/
def get_all_of_fold (spec : Spec) :
    Nat → List (String × SchemaOrRef) → List String → List SchemaOrRef →
      List (String × SchemaOrRef) × List String
| _, props, req, [] => (props, req)
| fuel, props, req, obj :: rest =>
  let (props2, req2) := get_all_of_properties spec fuel props req (resolveSchema spec obj)
  get_all_of_fold spec fuel props2 req2 rest
termination_by fuel _ _ l => (fuel, l.length + 1)
end

/-- Embeds the field construction of `define_type`'s properties branch:
resolve each property, get its type, and collect into a BTreeMap. -/
def define_type_fields (fuel : Nat) :
    Converter → List (String × SchemaOrRef) → List String →
      List (String × Field) → List (String × Field) × Converter
| st, [], _, acc => (acc, st)
| st, (nm, property) :: rest, required, acc =>
  let property_schema := resolveSchema st.spec property
  let (tn, st2) := get_schema_type fuel st property_schema (name_from_ref_path property)
  let (lst, type_of) := tn.into_tuple
  let doc := property_schema.description
  let fld : Field :=
    { type_of := type_of, required := required.contains nm,
      list := lst, doc := doc, args := [], http := none }
  define_type_fields fuel st2 rest required (btInsert acc nm fld)

/-- Embeds the field construction of `define_type`'s all-of branch (doc is
not propagated onto the fields there). -/
def define_all_of_fields (fuel : Nat) :
    Converter → List (String × SchemaOrRef) → List String →
      List (String × Field) → List (String × Field) × Converter
| st, [], _, acc => (acc, st)
| st, (nm, property) :: rest, required, acc =>
  let (tn, st2) := get_schema_type fuel st (resolveSchema st.spec property)
    (name_from_ref_path property)
  let (lst, type_of) := tn.into_tuple
  let fld : Field :=
    { type_of := type_of, list := lst,
      required := required.contains nm, doc := none, args := [], http := none }
  define_all_of_fields fuel st2 rest required (btInsert acc nm fld)

/-- Embeds the union-member naming of `define_type`'s any-of/one-of branch.
Note the source's `unwrap_or(self.insert_inline_type(...))`: `unwrap_or`
evaluates its argument eagerly, so the inline insert happens for every member
even when the ref or primitive name is used. -/
def define_union_types (fuel : Nat) :
    Converter → List SchemaOrRef → List String → List String × Converter
| st, [], acc => (acc, st)
| st, sref :: rest, acc =>
  let resolved := resolveSchema st.spec sref
  let (iname, st2) := insert_inline_type st resolved
  let n := ((name_from_ref_path sref).orElse
    (fun _ => resolved.schema_type.bind schema_to_primitive_type)).getD iname
  define_union_types fuel st2 rest (acc ++ [n])

/-- Embeds `define_type`: properties, then all-of, then any-of/one-of, then
enum, else nothing. -/
def define_type (fuel : Nat) (st : Converter) (schema : Schema) :
    Option ConfigType × Converter :=
  if !schema.properties.isEmpty then
    let (fields, st2) := define_type_fields fuel st schema.properties schema.required []
    (some (.typeT { fields := fields, doc := schema.description }), st2)
  else if !schema.all_of.isEmpty then
    let doc := schema.description
    let (properties, required) := get_all_of_properties st.spec fuel [] [] schema
    let (fields, st2) := define_all_of_fields fuel st properties required []
    (some (.typeT { fields := fields, doc := doc }), st2)
  else if !schema.any_of.isEmpty || !schema.one_of.isEmpty then
    let (types, st2) := define_union_types fuel st (schema.any_of ++ schema.one_of) []
    (some (.unionT { types := types, doc := schema.description }), st2)
  else if !schema.enum_values.isEmpty then
    (some (.enumT { variants := schema.enum_values, doc := schema.description }), st)
  else (none, st)

/-- Embeds `define_types`: pop pending schemas in order, defining each under
the anonymous name `Type<index>`; the index advances only when something was
defined (the source `continue`s otherwise). -/
def define_types (fuel : Nat) : Converter → List Schema → Nat → Converter
| st, [], _ => st
| st, schema :: rest, index =>
  let nm := toPascal ("Type" ++ toString index)
  match define_type fuel st schema with
  | (some (.typeT t), st2) =>
    define_types fuel { st2 with types := btInsert st2.types nm t } rest (index + 1)
  | (some (.unionT u), st2) =>
    define_types fuel { st2 with unions := btInsert st2.unions nm u } rest (index + 1)
  | (some (.enumT e), st2) =>
    define_types fuel { st2 with enums := btInsert st2.enums nm e } rest (index + 1)
  | (none, st2) => define_types fuel st2 rest index

/-- Embeds `define_inline_types`: take the pending inline types, define them
in a single frozen pass, and unfreeze.  The source's loop over
`inline_types_other` is commented out: whatever was queued there is never
defined. -/
def define_inline_types (fuel : Nat) (st : Converter) : Converter :=
  let inline_types := st.inline_types
  let st2 := { st with inline_types := [], inline_types_frozen := true }
  let st3 := define_types fuel st2 inline_types 0
  { st3 with inline_types_frozen := false }

/-! The inline-type bookkeeping never reads `inline_types_other`: every
converter function is, up to the schemas it appends there, independent of
that queue.  `coreOf` empties the queue; each lemma below states that running
from the full state equals running from the cored state and re-prefixing the
initial queue. -/

/-- The converter state with the `inline_types_other` queue emptied. -/
def coreOf (st : Converter) : Converter := { st with inline_types_other := [] }

theorem coreOf_coreOf (st : Converter) : coreOf (coreOf st) = coreOf st := rfl

/-- Re-attach an initial queue in front of a state's queue. -/
def withOther (st : Converter) (o : List Schema) : Converter :=
  { st with inline_types_other := o ++ st.inline_types_other }

theorem withOther_core_self (st : Converter) :
    withOther (coreOf st) st.inline_types_other = st := by
  cases st
  simp [withOther, coreOf]

theorem insert_inline_type_other (st : Converter) (s : Schema) :
    insert_inline_type st s =
      ((insert_inline_type (coreOf st) s).1,
        withOther (insert_inline_type (coreOf st) s).2 st.inline_types_other) := by
  cases st with
  | mk q sp it fz ot ty un en =>
    cases fz <;> simp [insert_inline_type, coreOf, withOther]

theorem get_schema_type_other (fuel : Nat) :
    ∀ (st : Converter) (sch : Schema) (nm : Option String),
      get_schema_type fuel st sch nm =
        ((get_schema_type fuel (coreOf st) sch nm).1,
          withOther (get_schema_type fuel (coreOf st) sch nm).2
            st.inline_types_other) := by
  induction fuel with
  | zero =>
    intro st sch nm
    simp [get_schema_type, withOther_core_self]
  | succ fuel ih =>
    intro st sch nm
    have hspec : (coreOf st).spec = st.spec := rfl
    simp only [get_schema_type, hspec]
    cases hitems : sch.items with
    | some element =>
      simp only []
      by_cases hb : (decide ((resolveSchema st.spec element).schema_type =
          some SchemaType.string) &&
          !(resolveSchema st.spec element).enum_values.isEmpty) = true
      · rw [if_pos hb, if_pos hb]
        rw [insert_inline_type_other st]
      · rw [if_neg hb, if_neg hb]
        cases hor : (name_from_ref_path element).orElse
            (fun _ => (resolveSchema st.spec element).schema_type.bind
              schema_to_primitive_type) with
        | some n => simp [withOther_core_self]
        | none =>
          simp only []
          rw [ih st]
    | none =>
      simp only []
      by_cases hb : (decide (sch.schema_type = some SchemaType.string) &&
          !sch.enum_values.isEmpty) = true
      · rw [if_pos hb, if_pos hb]
        rw [insert_inline_type_other st]
      · rw [if_neg hb, if_neg hb]
        cases hty : sch.schema_type with
        | some t =>
          cases t with
          | integer => simp [withOther_core_self]
          | string => simp [withOther_core_self]
          | number => simp [withOther_core_self]
          | boolean => simp [withOther_core_self]
          | array =>
            by_cases hadd : sch.additional_properties = true
            · rw [if_pos hadd, if_pos hadd]
              simp [withOther_core_self]
            · rw [if_neg hadd, if_neg hadd]
              cases nm with
              | some n => simp [withOther_core_self]
              | none =>
                by_cases hdef : can_define_type sch = true
                · rw [if_pos hdef, if_pos hdef]
                  rw [insert_inline_type_other st]
                · rw [if_neg hdef, if_neg hdef]
                  simp [withOther_core_self]
          | object =>
            by_cases hadd : sch.additional_properties = true
            · rw [if_pos hadd, if_pos hadd]
              simp [withOther_core_self]
            · rw [if_neg hadd, if_neg hadd]
              cases nm with
              | some n => simp [withOther_core_self]
              | none =>
                by_cases hdef : can_define_type sch = true
                · rw [if_pos hdef, if_pos hdef]
                  rw [insert_inline_type_other st]
                · rw [if_neg hdef, if_neg hdef]
                  simp [withOther_core_self]
        | none =>
          by_cases hadd : sch.additional_properties = true
          · rw [if_pos hadd, if_pos hadd]
            simp [withOther_core_self]
          · rw [if_neg hadd, if_neg hadd]
            cases nm with
            | some n => simp [withOther_core_self]
            | none =>
              by_cases hdef : can_define_type sch = true
              · rw [if_pos hdef, if_pos hdef]
                rw [insert_inline_type_other st]
              · rw [if_neg hdef, if_neg hdef]
                simp [withOther_core_self]

theorem withOther_withOther (x : Converter) (o1 o2 : List Schema) :
    withOther (withOther x o2) o1 = withOther x (o1 ++ o2) := by
  cases x
  simp [withOther]

theorem coreOf_withOther (x : Converter) (o : List Schema) :
    coreOf (withOther x o) = coreOf x := by
  cases x
  simp [coreOf, withOther]

theorem withOther_other (x : Converter) (o : List Schema) :
    (withOther x o).inline_types_other = o ++ x.inline_types_other := rfl

theorem define_type_fields_other (fuel : Nat) :
    ∀ (props : List (String × SchemaOrRef)) (req : List String)
      (acc : List (String × Field)) (st : Converter),
      define_type_fields fuel st props req acc =
        ((define_type_fields fuel (coreOf st) props req acc).1,
          withOther (define_type_fields fuel (coreOf st) props req acc).2
            st.inline_types_other) := by
  intro props
  induction props with
  | nil =>
    intro req acc st
    simp [define_type_fields, withOther_core_self]
  | cons kv rest ih =>
    intro req acc st
    cases kv with
    | mk nm property =>
      have hspec : (coreOf st).spec = st.spec := rfl
      simp only [define_type_fields, hspec]
      rw [get_schema_type_other fuel st]
      cases hG : get_schema_type fuel (coreOf st) (resolveSchema st.spec property)
          (name_from_ref_path property) with
      | mk t0 stc =>
        simp only []
        rw [ih _ _ (withOther stc st.inline_types_other), ih _ _ stc,
          coreOf_withOther, withOther_other, withOther_withOther]

theorem define_all_of_fields_other (fuel : Nat) :
    ∀ (props : List (String × SchemaOrRef)) (req : List String)
      (acc : List (String × Field)) (st : Converter),
      define_all_of_fields fuel st props req acc =
        ((define_all_of_fields fuel (coreOf st) props req acc).1,
          withOther (define_all_of_fields fuel (coreOf st) props req acc).2
            st.inline_types_other) := by
  intro props
  induction props with
  | nil =>
    intro req acc st
    simp [define_all_of_fields, withOther_core_self]
  | cons kv rest ih =>
    intro req acc st
    cases kv with
    | mk nm property =>
      have hspec : (coreOf st).spec = st.spec := rfl
      simp only [define_all_of_fields, hspec]
      rw [get_schema_type_other fuel st]
      cases hG : get_schema_type fuel (coreOf st) (resolveSchema st.spec property)
          (name_from_ref_path property) with
      | mk t0 stc =>
        simp only []
        rw [ih _ _ (withOther stc st.inline_types_other), ih _ _ stc,
          coreOf_withOther, withOther_other, withOther_withOther]

theorem define_union_types_other (fuel : Nat) :
    ∀ (srefs : List SchemaOrRef) (acc : List String) (st : Converter),
      define_union_types fuel st srefs acc =
        ((define_union_types fuel (coreOf st) srefs acc).1,
          withOther (define_union_types fuel (coreOf st) srefs acc).2
            st.inline_types_other) := by
  intro srefs
  induction srefs with
  | nil =>
    intro acc st
    simp [define_union_types, withOther_core_self]
  | cons sref rest ih =>
    intro acc st
    have hspec : (coreOf st).spec = st.spec := rfl
    simp only [define_union_types, hspec]
    rw [insert_inline_type_other st]
    cases hI : insert_inline_type (coreOf st) (resolveSchema st.spec sref) with
    | mk n0 stc =>
      simp only []
      have hlen : (coreOf st).inline_types.length = st.inline_types.length := rfl
      rw [ih _ (withOther stc st.inline_types_other), ih _ stc,
        coreOf_withOther, withOther_other, withOther_withOther]

theorem define_type_other (fuel : Nat) (st : Converter) (schema : Schema) :
    define_type fuel st schema =
      ((define_type fuel (coreOf st) schema).1,
        withOther (define_type fuel (coreOf st) schema).2
          st.inline_types_other) := by
  have hspec : (coreOf st).spec = st.spec := rfl
  unfold define_type
  by_cases h1 : (!schema.properties.isEmpty) = true
  · rw [if_pos h1, if_pos h1]
    rw [define_type_fields_other fuel schema.properties schema.required [] st]
  · rw [if_neg h1, if_neg h1]
    by_cases h2 : (!schema.all_of.isEmpty) = true
    · rw [if_pos h2, if_pos h2]
      simp only [hspec]
      cases hP : get_all_of_properties st.spec fuel [] [] schema with
      | mk properties required =>
        simp only []
        rw [define_all_of_fields_other fuel properties required [] st]
    · rw [if_neg h2, if_neg h2]
      by_cases h3 : ((!schema.any_of.isEmpty) || (!schema.one_of.isEmpty)) = true
      · rw [if_pos h3, if_pos h3]
        rw [define_union_types_other fuel (schema.any_of ++ schema.one_of) [] st]
      · rw [if_neg h3, if_neg h3]
        by_cases h4 : (!schema.enum_values.isEmpty) = true
        · rw [if_pos h4, if_pos h4]
          simp [withOther_core_self]
        · rw [if_neg h4, if_neg h4]
          simp [withOther_core_self]

theorem coreOf_types_update (x : Converter) (X : List (String × TypeDef)) :
    coreOf { x with types := X } = { coreOf x with types := X } := rfl

theorem withOther_types_update (x : Converter) (o : List Schema)
    (X : List (String × TypeDef)) :
    { withOther x o with types := X } = withOther { x with types := X } o := rfl

theorem define_types_other (fuel : Nat) :
    ∀ (schemas : List Schema) (index : Nat) (st : Converter),
      define_types fuel st schemas index =
        withOther (define_types fuel (coreOf st) schemas index)
          st.inline_types_other := by
  intro schemas
  induction schemas with
  | nil =>
    intro index st
    simp [define_types, withOther_core_self]
  | cons schema rest ih =>
    intro index st
    simp only [define_types]
    rw [define_type_other fuel st schema]
    cases hD : define_type fuel (coreOf st) schema with
    | mk res stc =>
      cases res with
      | none =>
        have hL := ih index (withOther stc st.inline_types_other)
        have hR := ih index stc
        rw [coreOf_withOther] at hL
        simp only [withOther] at hL hR ⊢
        simp [hL, hR, List.append_assoc]
      | some cfg =>
        cases cfg with
        | typeT t =>
          have hL := ih (index + 1) (withOther { stc with types := btInsert stc.types (toPascal ("Type" ++ toString index)) t } st.inline_types_other)
          have hR := ih (index + 1) { stc with types := btInsert stc.types (toPascal ("Type" ++ toString index)) t }
          rw [coreOf_withOther] at hL
          simp only [withOther] at hL hR ⊢
          simp [hL, hR, List.append_assoc]
        | unionT u =>
          have hL := ih (index + 1) (withOther { stc with unions := btInsert stc.unions (toPascal ("Type" ++ toString index)) u } st.inline_types_other)
          have hR := ih (index + 1) { stc with unions := btInsert stc.unions (toPascal ("Type" ++ toString index)) u }
          rw [coreOf_withOther] at hL
          simp only [withOther] at hL hR ⊢
          simp [hL, hR, List.append_assoc]
        | enumT e =>
          have hL := ih (index + 1) (withOther { stc with enums := btInsert stc.enums (toPascal ("Type" ++ toString index)) e } st.inline_types_other)
          have hR := ih (index + 1) { stc with enums := btInsert stc.enums (toPascal ("Type" ++ toString index)) e }
          rw [coreOf_withOther] at hL
          simp only [withOther] at hL hR ⊢
          simp [hL, hR, List.append_assoc]

theorem define_inline_types_other (fuel : Nat) (st : Converter) :
    define_inline_types fuel st =
      withOther (define_inline_types fuel (coreOf st)) st.inline_types_other := by
  unfold define_inline_types
  simp only []
  have hprep : ({ st with inline_types := [], inline_types_frozen := true } : Converter) = withOther { coreOf st with inline_types := [], inline_types_frozen := true } st.inline_types_other := by
    cases st
    simp [withOther, coreOf]
  rw [hprep]
  rw [define_types_other fuel st.inline_types 0 (withOther { coreOf st with inline_types := [], inline_types_frozen := true } st.inline_types_other)]
  rw [coreOf_withOther]
  have hcc : coreOf { coreOf st with inline_types := [], inline_types_frozen := true } = { coreOf st with inline_types := [], inline_types_frozen := true } := by
    cases st
    simp [coreOf]
  rw [hcc]
  simp only [withOther, coreOf]
  simp

/-- Rust regex `\w`: ASCII word characters. -/
def isWordChar (c : Char) : Bool := c.isAlphanum || c = '_'

/-- Embeds the `replacen` of regex `\{\w+\}` over the path: each `{name}` is
replaced by `{{args.name}}` and `name` recorded, scanning left to right.
Structural on fuel (each step consumes at least one character, so the input
length always suffices). -/
def replacePathParamsAux : Nat → List Char → List Char × List String
| 0, l => (l, [])
| _ + 1, [] => ([], [])
| fuel + 1, c :: rest =>
  if c = Char.ofNat 123 then
    let word := rest.takeWhile isWordChar
    let rest2 := rest.drop word.length
    match rest2, word with
    | c2 :: rest3, _ :: _ =>
      if c2 = Char.ofNat 125 then
        let (tail, names) := replacePathParamsAux fuel rest3
        (Char.ofNat 123 :: Char.ofNat 123 :: ("args.".toList ++ word ++
          [Char.ofNat 125, Char.ofNat 125]) ++ tail,
          String.mk word :: names)
      else
        let (tail, names) := replacePathParamsAux fuel rest
        (c :: tail, names)
    | _, _ =>
      let (tail, names) := replacePathParamsAux fuel rest
      (c :: tail, names)
  else
    let (tail, names) := replacePathParamsAux fuel rest
    (c :: tail, names)

/-- String wrapper for `replacePathParamsAux`: the rewritten path and the
`url_params` collected in match order. -/
def replacePathParams (s : String) : String × List String :=
  let (cs, names) := replacePathParamsAux s.toList.length s.toList
  (String.mk cs, names)

/-- Embeds the args construction of `create_types`: resolve each parameter,
get its schema type (passing `param_type` as the name hint), and collect
into a BTreeMap keyed by parameter name. -/
def build_args (fuel : Nat) :
    Converter → List (ObjOrRef Parameter) → List (String × Arg) →
      List (String × Arg) × Converter
| st, [], acc => (acc, st)
| st, paramRef :: rest, acc =>
  let param := resolveParameter paramRef
  let (tn, st2) := get_schema_type fuel st (param.schema.getD unreachableSchema)
    param.param_type
  let (is_list, nm) := tn.into_tuple
  let arg : Arg :=
    { type_of := nm, list := is_list, required := param.required.getD false,
      doc := none, modify := none, default_value := none }
  build_args fuel st2 rest (btInsert acc param.name arg)

/-- Embeds the method selection of `create_types`: the first populated
operation in the source's fixed order (absence panics in the source). -/
def firstOperation (item : PathItem) : Option (Method × Operation) :=
  match item.get with
  | some op => some (.GET, op)
  | none =>
  match item.head with
  | some op => some (.HEAD, op)
  | none =>
  match item.options with
  | some op => some (.OPTIONS, op)
  | none =>
  match item.trace with
  | some op => some (.TRACE, op)
  | none =>
  match item.put with
  | some op => some (.PUT, op)
  | none =>
  match item.post with
  | some op => some (.POST, op)
  | none =>
  match item.delete with
  | some op => some (.DELETE, op)
  | none =>
  match item.patch with
  | some op => some (.PATCH, op)
  | none => none

/-- Embeds the per-path loop body of `create_types` over the sorted paths,
accumulating the Query fields.  The source's panics on a path item without
operations or an operation without responses are modelled by skipping the
path; its `continue`s on an unresolvable response or absent output schema
are skips in the source as well. -/
def create_types_paths (fuel : Nat) :
    Converter → List (String × PathItem) → List (String × Field) →
      List (String × Field) × Converter
| st, [], fields => (fields, st)
| st, (path, path_item) :: rest, fields =>
  match firstOperation path_item with
  | none => create_types_paths fuel st rest fields
  | some (method, operation) =>
  match operation.responses.head? with
  | none => create_types_paths fuel st rest fields
  | some (_, respRef) =>
  match resolveResponse respRef with
  | none => create_types_paths fuel st rest fields
  | some response =>
  match (response.content.head?.map (fun kv => kv.2)).bind (fun mt => mt.schema) with
  | none => create_types_paths fuel st rest fields
  | some output_type =>
    let (args, st2) := build_args fuel st operation.parameters []
    let (tn, st3) := get_schema_type fuel st2 (resolveSchema st2.spec output_type)
      (name_from_ref_path output_type)
    let (is_list, nm) := tn.into_tuple
    let (path2, url_params) :=
      if !args.isEmpty then replacePathParams path else (path, [])
    let query_params := (args.filter
      (fun kv => !(url_params.contains kv.1))).map
      (fun kv => KeyValue.mk kv.1
        (String.mk (Char.ofNat 123 :: Char.ofNat 123 :: ("args." ++ kv.1).toList ++
          [Char.ofNat 125, Char.ofNat 125])))
    let field : Field :=
      { type_of := nm, list := is_list, args := args,
        http := some { path := path2, method := method, query := query_params },
        doc := operation.description, required := false }
    create_types_paths fuel st3 rest
      (btInsert fields (toCamel (operation.operation_id.getD unreachableName)) field)

/-- Embeds the components-schemas loop of `create_types`. -/
def define_components_schemas (fuel : Nat) :
    Converter → List (String × SchemaOrRef) → Converter
| st, [] => st
| st, (nm, obj_or_ref) :: rest =>
  let nm2 := toPascal nm
  let schema := resolveSchema st.spec obj_or_ref
  match define_type fuel st schema with
  | (some (.typeT t), st2) =>
    define_components_schemas fuel { st2 with types := btInsert st2.types nm2 t } rest
  | (some (.unionT u), st2) =>
    define_components_schemas fuel { st2 with unions := btInsert st2.unions nm2 u } rest
  | (some (.enumT e), st2) =>
    define_components_schemas fuel { st2 with enums := btInsert st2.enums nm2 e } rest
  | (none, st2) => define_components_schemas fuel st2 rest

/-- Embeds `create_types`: build the Query fields from the paths, insert the
Query type, define the component schemas, then run the single inline-type
pass (absent components panic in the source). -/
def create_types (fuel : Nat) (st : Converter) : Converter :=
  let components :=
    match st.spec.components with
    | some c => c
    | none => { schemas := [] }
  let (fields, st2) := create_types_paths fuel st st.spec.paths []
  let st3 := { st2 with
    types := btInsert st2.types "Query" { fields := fields, doc := none } }
  let st4 := define_components_schemas fuel st3 components.schemas
  define_inline_types fuel st4

/-- Embeds `convert`: run `create_types` and assemble the config. -/
def convert (fuel : Nat) (st : Converter) : Config :=
  let st2 := create_types fuel st
  { upstream_base_url := (st2.spec.servers.head?).map (fun sv => sv.url),
    schema_query := (lookupAssoc st2.types "Query").map (fun _ => "Query"),
    types := st2.types, unions := st2.unions, enums := st2.enums }

/-! The concrete OpenAPI input of C7: `GET /posts/{id}` with operationId
`posts`, a required integer path parameter `id`, and a response referencing
`Post`.  A second variant adds a non-path string parameter `search` to
exercise the query key-value construction. -/

/-- An integer schema. -/
def intSchema : Schema := .mk none (some .integer) [] [] [] [] [] false [] none

/-- A string schema. -/
def strSchema : Schema := .mk none (some .string) [] [] [] [] [] false [] none

/-- The `Post` component schema: integer `id` (required) and string `title`. -/
def postSchema : Schema :=
  .mk none (some .object) []
    [("id", .obj intSchema), ("title", .obj strSchema)] [] [] [] false ["id"] none

/-- The required integer path parameter `id`. -/
def idParam : Parameter :=
  { name := "id", required := some true, schema := some intSchema, param_type := none }

/-- The optional string query parameter `search` of the variant. -/
def searchParam : Parameter :=
  { name := "search", required := some false, schema := some strSchema,
    param_type := none }

/-- The 200 response referencing `Post`. -/
def postsResponse : ObjOrRef ResponseObj :=
  .obj { content :=
    [("application/json", { schema := some (.ref "#/components/schemas/Post") })] }

/-- The `GET /posts/{id}` operation with only the path parameter. -/
def postsOp : Operation :=
  { operation_id := some "posts", parameters := [.obj idParam],
    responses := [("200", postsResponse)], description := none }

/-- The same operation with an extra non-path parameter `search`. -/
def postsOp2 : Operation :=
  { operation_id := some "posts", parameters := [.obj idParam, .obj searchParam],
    responses := [("200", postsResponse)], description := none }

/-- A path item exposing only GET. -/
def getOnly (op : Operation) : PathItem :=
  { get := some op, head := none, options := none, trace := none,
    put := none, post := none, delete := none, patch := none }

/-- The OpenAPI spec of the claim. -/
def postsSpec : Spec :=
  { servers := [{ url := "https://example.com" }],
    paths := [("/posts/" ++ String.mk [Char.ofNat 123] ++ "id" ++ String.mk [Char.ofNat 125],
      getOnly postsOp)],
    components := some { schemas := [("Post", .obj postSchema)] } }

/-- The variant spec with the extra query parameter. -/
def postsSpec2 : Spec :=
  { servers := [{ url := "https://example.com" }],
    paths := [("/posts/" ++ String.mk [Char.ofNat 123] ++ "id" ++ String.mk [Char.ofNat 125],
      getOnly postsOp2)],
    components := some { schemas := [("Post", .obj postSchema)] } }

/-- The `id` argument the converter should produce. -/
def idArg : Arg :=
  { type_of := "Int", list := false, required := true, doc := none,
    modify := none, default_value := none }

/-- The `search` argument of the variant. -/
def searchArg : Arg :=
  { type_of := "String", list := false, required := false, doc := none,
    modify := none, default_value := none }

/-- The rewritten @http path `/posts/{{args.id}}`. -/
def postsPath : String := "/posts/" ++ "\x7b\x7bargs.id\x7d\x7d"

/-- The expected `posts` field of the basic spec. -/
def postsField : Field :=
  { type_of := "Post", list := false, required := false, doc := none,
    args := [("id", idArg)],
    http := some { path := postsPath, method := .GET, query := [] } }

/-- The expected `posts` field of the variant with the `search` parameter. -/
def postsField2 : Field :=
  { type_of := "Post", list := false, required := false, doc := none,
    args := [("id", idArg), ("search", searchArg)],
    http := some (Http.mk postsPath .GET
      [KeyValue.mk "search" "\x7b\x7bargs.search\x7d\x7d"]) }

/-- C7: converting the OpenAPI spec `GET /posts/{id}` (operationId `posts`,
required integer path parameter `id`, response referencing `Post`) yields a
Query type whose field `posts` takes argument `id : Int` with
`required = true`, returns `Post`, and whose @http path is
`/posts/{{args.id}}` with no query parameters; with an additional non-path
parameter `search`, that parameter becomes the query key-value pair
`search={{args.search}}`. -/
theorem claim_C7_openapi_get_posts :
    lookupAssoc (convert 100 (converterOf "Query" postsSpec)).types "Query" =
        some { fields := [("posts", postsField)], doc := none } ∧
      lookupAssoc (convert 100 (converterOf "Query" postsSpec2)).types "Query" =
        some { fields := [("posts", postsField2)], doc := none } := by
  constructor
  · rfl
  · rfl

/-- C6: inline types are defined in exactly one pass.  A schema inserted
while `inline_types_frozen` is set is queued into `inline_types_other` (and
the caller receives the generated anonymous name `Type<n>`, which it embeds
in the config it is building); `define_inline_types` defines only the
pending `inline_types` — its output type, union and enum maps do not depend
on `inline_types_other` at all, and the queue is never consumed: it only
grows by the schemas discovered during the pass. -/
theorem claim_C6_inline_types_single_pass (st1 st2 : Converter) (s : Schema)
    (fuel : Nat) (o : List Schema)
    (hfrozen : st1.inline_types_frozen = true) :
    insert_inline_type st1 s =
        ("Type" ++ toString st1.inline_types.length,
          { st1 with inline_types_other := st1.inline_types_other ++ [s] }) ∧
      (define_inline_types fuel { st2 with inline_types_other := o }).types =
        (define_inline_types fuel st2).types ∧
      (define_inline_types fuel { st2 with inline_types_other := o }).unions =
        (define_inline_types fuel st2).unions ∧
      (define_inline_types fuel { st2 with inline_types_other := o }).enums =
        (define_inline_types fuel st2).enums ∧
      ∃ discovered, (define_inline_types fuel st2).inline_types_other =
        st2.inline_types_other ++ discovered := by
  have hcore : coreOf { st2 with inline_types_other := o } = coreOf st2 := rfl
  have h1 := define_inline_types_other fuel { st2 with inline_types_other := o }
  have h2 := define_inline_types_other fuel st2
  rw [hcore] at h1
  refine ⟨?_, ?_, ?_, ?_, ?_⟩
  · unfold insert_inline_type
    rw [if_pos hfrozen]
  · rw [h1, h2]; rfl
  · rw [h1, h2]; rfl
  · rw [h1, h2]; rfl
  · exact ⟨(define_inline_types fuel (coreOf st2)).inline_types_other, by rw [h2]; rfl⟩

/-- Witness for C6 at concrete states: the converter for the posts spec with
a frozen flag for the insertion part, an integer schema, fuel 5 and a
one-schema queue. -/
theorem claim_C6_witness :
    insert_inline_type
        { converterOf "Query" postsSpec with inline_types_frozen := true } intSchema =
        ("Type" ++ toString ({ converterOf "Query" postsSpec with
            inline_types_frozen := true } : Converter).inline_types.length,
          { { converterOf "Query" postsSpec with inline_types_frozen := true } with
            inline_types_other := ({ converterOf "Query" postsSpec with
              inline_types_frozen := true } : Converter).inline_types_other ++ [intSchema] }) ∧
      (define_inline_types 5 { converterOf "Query" postsSpec with
          inline_types_other := [intSchema] }).types =
        (define_inline_types 5 (converterOf "Query" postsSpec)).types ∧
      (define_inline_types 5 { converterOf "Query" postsSpec with
          inline_types_other := [intSchema] }).unions =
        (define_inline_types 5 (converterOf "Query" postsSpec)).unions ∧
      (define_inline_types 5 { converterOf "Query" postsSpec with
          inline_types_other := [intSchema] }).enums =
        (define_inline_types 5 (converterOf "Query" postsSpec)).enums ∧
      ∃ discovered, (define_inline_types 5 (converterOf "Query" postsSpec)).inline_types_other =
        (converterOf "Query" postsSpec).inline_types_other ++ discovered :=
  claim_C6_inline_types_single_pass
    { converterOf "Query" postsSpec with inline_types_frozen := true }
    (converterOf "Query" postsSpec) intSchema 5 [intSchema] rfl

end Tailcall
